import Mathlib

/-!
Shallow embedding of the synacor-vm execution engine (`src/vm.rs`).

The Rust `struct VM` holds `memory : [u16; 32768]`, `registers : [u16; 8]`,
`stack : Vec<u16>` and `pc : usize`.  Machine words are embedded as `Nat`
with explicit `% 2^16` where `Wrapping<u16>` arithmetic wraps and explicit
`% 2^8` where `as u8` truncates.  The process's stdin and stdout, which the
`in` and `out` opcodes use directly, become explicit `input`/`output` byte
lists on the state.  Rust panics (out-of-bounds indexing, remainder by
zero) are embedded as `none`; `Result::Err` values become an explicit
error datatype carrying the same data the `format!` messages interpolate.
-/

/-- The constant `INTEGER_SIZE` from vm.rs. -/
def INTEGER_SIZE : Nat := 15

/-- The constant `MAX_VALUE = 1 << INTEGER_SIZE` from vm.rs. -/
def MAX_VALUE : Nat := 1 <<< INTEGER_SIZE

/-- The constant `ADDRESS_SPACE` from vm.rs. -/
def ADDRESS_SPACE : Nat := MAX_VALUE

/-- The constant `REGISTER_COUNT` from vm.rs. -/
def REGISTER_COUNT : Nat := 8

/-- Machine state of the virtual machine (`struct VM` in vm.rs).  The Rust
struct has no input/output fields — the `in`/`out` opcodes read stdin and
write stdout directly — so those ambient byte streams are made explicit
here as `input` (bytes still unread) and `output` (bytes written so far). -/
structure VM where
  memory : List Nat
  registers : List Nat
  stack : List Nat
  pc : Nat
  input : List Nat
  output : List Nat
  deriving DecidableEq

/-- The error values of vm.rs, one constructor per distinct `format!`
message, carrying the data the message interpolates (the offending
address/opcode and the `self.pc` value quoted in the message). -/
inductive VMErr where
  | invalidLoad (address atPc : Nat)
  | invalidStore (address atPc : Nat)
  | popFromEmptyStack (atPc : Nat)
  | unknownOpcode (code atPc : Nat)
  deriving DecidableEq

/-- Outcome of one `VM::cycle` call: Rust's `Result<bool, String>` together
with the caller's VM as it stands after the call (the Rust method mutates
`self` in place, so on `Err` the partially-advanced state survives).
`ok vm true` is `Ok(true)` (keep running), `ok vm false` is `Ok(false)`
(halt). -/
inductive StepOut where
  | ok (vm : VM) (running : Bool)
  | err (vm : VM) (e : VMErr)
  deriving DecidableEq

/-- `VM::load` from vm.rs: operands `0..=32767` are literals, `32768..=32775`
name registers, anything larger is an invalid load.  Reading a register of
the 8-element file is embedded with `getD` (the Rust index is always in
bounds for the 8-element array). -/
def VM.load (vm : VM) (address : Nat) : Except VMErr Nat :=
  if address ≤ 32767 then
    Except.ok address
  else if address ≤ 32775 then
    Except.ok (vm.registers.getD (address - 32768) 0)
  else
    Except.error (VMErr.invalidLoad address vm.pc)

/-- `VM::set` from vm.rs: the source operand is resolved through `load`
first (so an invalid source fails with `invalidLoad` before the
destination is examined); then the destination must name a register. -/
def VM.set (vm : VM) (destination_address source_address : Nat) : Except VMErr VM :=
  match vm.load source_address with
  | Except.error e => Except.error e
  | Except.ok source =>
    if 32768 ≤ destination_address ∧ destination_address ≤ 32775 then
      Except.ok { vm with
        registers := vm.registers.set (destination_address - 32768) source }
    else
      Except.error (VMErr.invalidStore destination_address vm.pc)

/-- `VM::next_argument` from vm.rs: read `memory[pc]` and advance `pc`.
Rust indexing panics when `pc` is out of bounds; that is `none` here. -/
def VM.next_argument (vm : VM) : Option (Nat × VM) :=
  match vm.memory[vm.pc]? with
  | some value => some (value, { vm with pc := vm.pc + 1 })
  | none => none

/-- `self.stack.pop()`: a Rust `Vec` pops from its back end. -/
def VM.popTop (vm : VM) : Option (Nat × VM) :=
  match vm.stack.getLast? with
  | some tos => some (tos, { vm with stack := vm.stack.dropLast })
  | none => none

/-- The `jmp!` macro from `VM::cycle`: `self.pc = self.load(location)?`. -/
def VM.jmp (vm : VM) (location : Nat) : Except VMErr VM :=
  match vm.load location with
  | Except.ok target => Except.ok { vm with pc := target }
  | Except.error e => Except.error e

/-- Wrapping u16 addition, as `Wrapping(b) + Wrapping(c)` in vm.rs. -/
def wrappingAdd (b c : Nat) : Option Nat := some ((b + c) % 65536)

/-- Wrapping u16 multiplication, as `Wrapping(b) * Wrapping(c)` in vm.rs. -/
def wrappingMul (b c : Nat) : Option Nat := some ((b * c) % 65536)

/-- Remainder on `Wrapping<u16>`: Rust panics when the divisor is zero
(that is the `none` case); otherwise it is the plain remainder. -/
def wrappingRem (b c : Nat) : Option Nat :=
  if c = 0 then none else some (b % c)

/-- Bitwise and on u16, as `Wrapping(b) & Wrapping(c)` in vm.rs. -/
def wrappingAnd (b c : Nat) : Option Nat := some (b &&& c)

/-- Bitwise or on u16, as `Wrapping(b) | Wrapping(c)` in vm.rs. -/
def wrappingOr (b c : Nat) : Option Nat := some (b ||| c)

/-- Opcode 1 (`set a b`) from `VM::cycle`.  `vm` already points past the
opcode word. -/
def VM.stepSet (vm : VM) : Option StepOut :=
  match vm.next_argument with
  | none => none
  | some (a, vm) =>
    match vm.next_argument with
    | none => none
    | some (b, vm) =>
      match vm.set a b with
      | Except.ok vm' => some (StepOut.ok vm' true)
      | Except.error e => some (StepOut.err vm e)

/-- Opcode 2 (`push a`): resolve the operand and push it. -/
def VM.stepPush (vm : VM) : Option StepOut :=
  match vm.next_argument with
  | none => none
  | some (a, vm) =>
    match vm.load a with
    | Except.ok a_value => some (StepOut.ok { vm with stack := vm.stack ++ [a_value] } true)
    | Except.error e => some (StepOut.err vm e)

/-- Opcode 3 (`pop a`): popping happens before `set`, so on a `set` failure
the stack has already lost its top; an empty stack is an error reported at
`self.pc - 1`. -/
def VM.stepPop (vm : VM) : Option StepOut :=
  match vm.next_argument with
  | none => none
  | some (a, vm) =>
    match vm.popTop with
    | some (tos, vm) =>
      match vm.set a tos with
      | Except.ok vm' => some (StepOut.ok vm' true)
      | Except.error e => some (StepOut.err vm e)
    | none => some (StepOut.err vm (VMErr.popFromEmptyStack (vm.pc - 1)))

/-- The `bool_operation!` macro arms (opcodes 4 `eq` and 5 `gt`):
store 1 or 0 according to the comparison of the two resolved operands. -/
def VM.stepBoolOp (cmp : Nat → Nat → Bool) (vm : VM) : Option StepOut :=
  match vm.next_argument with
  | none => none
  | some (a, vm) =>
    match vm.next_argument with
    | none => none
    | some (b, vm) =>
      match vm.next_argument with
      | none => none
      | some (c, vm) =>
        match vm.load b with
        | Except.error e => some (StepOut.err vm e)
        | Except.ok b_value =>
          match vm.load c with
          | Except.error e => some (StepOut.err vm e)
          | Except.ok c_value =>
            match vm.set a (if cmp b_value c_value then 1 else 0) with
            | Except.ok vm' => some (StepOut.ok vm' true)
            | Except.error e => some (StepOut.err vm e)

/-- The `binary_operation!` macro arms (opcodes 9-13): apply the wrapping
u16 operation to the two resolved operands, reduce `% MAX_VALUE`, store. -/
def VM.stepBinOp (op : Nat → Nat → Option Nat) (vm : VM) : Option StepOut :=
  match vm.next_argument with
  | none => none
  | some (a, vm) =>
    match vm.next_argument with
    | none => none
    | some (b, vm) =>
      match vm.next_argument with
      | none => none
      | some (c, vm) =>
        match vm.load b with
        | Except.error e => some (StepOut.err vm e)
        | Except.ok b_value =>
          match vm.load c with
          | Except.error e => some (StepOut.err vm e)
          | Except.ok c_value =>
            match op b_value c_value with
            | none => none
            | some raw =>
              match vm.set a (raw % MAX_VALUE) with
              | Except.ok vm' => some (StepOut.ok vm' true)
              | Except.error e => some (StepOut.err vm e)

/-- Opcode 6 (`jmp a`). -/
def VM.stepJmp (vm : VM) : Option StepOut :=
  match vm.next_argument with
  | none => none
  | some (a, vm) =>
    match vm.jmp a with
    | Except.ok vm' => some (StepOut.ok vm' true)
    | Except.error e => some (StepOut.err vm e)

/-- Opcode 7 (`jt a b`): jump when the first operand resolves nonzero. -/
def VM.stepJt (vm : VM) : Option StepOut :=
  match vm.next_argument with
  | none => none
  | some (a, vm) =>
    match vm.next_argument with
    | none => none
    | some (b, vm) =>
      match vm.load a with
      | Except.error e => some (StepOut.err vm e)
      | Except.ok a_value =>
        if a_value ≠ 0 then
          match vm.jmp b with
          | Except.ok vm' => some (StepOut.ok vm' true)
          | Except.error e => some (StepOut.err vm e)
        else
          some (StepOut.ok vm true)

/-- Opcode 8 (`jf a b`): jump when the first operand resolves to zero. -/
def VM.stepJf (vm : VM) : Option StepOut :=
  match vm.next_argument with
  | none => none
  | some (a, vm) =>
    match vm.next_argument with
    | none => none
    | some (b, vm) =>
      match vm.load a with
      | Except.error e => some (StepOut.err vm e)
      | Except.ok a_value =>
        if a_value = 0 then
          match vm.jmp b with
          | Except.ok vm' => some (StepOut.ok vm' true)
          | Except.error e => some (StepOut.err vm e)
        else
          some (StepOut.ok vm true)

/-- Opcode 14 (`not a b`): 15-bit bitwise inverse,
`(!b_value) & ((1 << INTEGER_SIZE) - 1)` in vm.rs. -/
def VM.stepNot (vm : VM) : Option StepOut :=
  match vm.next_argument with
  | none => none
  | some (a, vm) =>
    match vm.next_argument with
    | none => none
    | some (b, vm) =>
      match vm.load b with
      | Except.error e => some (StepOut.err vm e)
      | Except.ok b_value =>
        match vm.set a ((b_value ^^^ 65535) &&& ((1 <<< INTEGER_SIZE) - 1)) with
        | Except.ok vm' => some (StepOut.ok vm' true)
        | Except.error e => some (StepOut.err vm e)

/-- Opcode 15 (`rmem a b`): `memory[load(b)]` — Rust indexing panics when
the resolved address is outside the memory array (the `none` case). -/
def VM.stepRmem (vm : VM) : Option StepOut :=
  match vm.next_argument with
  | none => none
  | some (a, vm) =>
    match vm.next_argument with
    | none => none
    | some (b, vm) =>
      match vm.load b with
      | Except.error e => some (StepOut.err vm e)
      | Except.ok b_value =>
        match vm.memory[b_value]? with
        | none => none
        | some memory_value =>
          match vm.set a memory_value with
          | Except.ok vm' => some (StepOut.ok vm' true)
          | Except.error e => some (StepOut.err vm e)

/-- Opcode 16 (`wmem a b`): write `load(b)` to `memory[load(a)]`; the
index-assignment panics out of bounds (the `none` case). -/
def VM.stepWmem (vm : VM) : Option StepOut :=
  match vm.next_argument with
  | none => none
  | some (a, vm) =>
    match vm.next_argument with
    | none => none
    | some (b, vm) =>
      match vm.load a with
      | Except.error e => some (StepOut.err vm e)
      | Except.ok memory_location =>
        match vm.load b with
        | Except.error e => some (StepOut.err vm e)
        | Except.ok b_value =>
          if memory_location < vm.memory.length then
            some (StepOut.ok { vm with memory := vm.memory.set memory_location b_value } true)
          else
            none

/-- Opcode 17 (`call a`): push `self.pc as u16` (the address after the
operand, truncated to 16 bits), then `jmp!`; note the push happens before
the operand is resolved, so a failing `jmp!` leaves the value pushed. -/
def VM.stepCall (vm : VM) : Option StepOut :=
  match vm.next_argument with
  | none => none
  | some (a, vm) =>
    match ({ vm with stack := vm.stack ++ [vm.pc % 65536] } : VM).jmp a with
    | Except.ok vm' => some (StepOut.ok vm' true)
    | Except.error e => some (StepOut.err { vm with stack := vm.stack ++ [vm.pc % 65536] } e)

/-- Opcode 18 (`ret`): pop and `jmp!` to the popped word (which is resolved
through `load`, so a popped register reference jumps to the register's
contents); an empty stack halts. -/
def VM.stepRet (vm : VM) : Option StepOut :=
  match vm.popTop with
  | some (tos, vm) =>
    match vm.jmp tos with
    | Except.ok vm' => some (StepOut.ok vm' true)
    | Except.error e => some (StepOut.err vm e)
  | none => some (StepOut.ok vm false)

/-- UTF-8 encoding of the code point `c` for `c < 256`: this is what
`print!("{}", byte as char)` sends to stdout — one byte below 128, two
bytes (`0xC2`/`0xC3` then a continuation byte) from 128 up. -/
def utf8OfByteChar (c : Nat) : List Nat :=
  if c < 128 then [c] else [192 ||| (c >>> 6), 128 ||| (c &&& 63)]

/-- Opcode 19 (`out a`): `print!("{}", load(a)? as u8 as char)` — the
resolved value is truncated to a byte (`% 256`), turned into the char with
that code point, and printed to stdout as UTF-8. -/
def VM.stepOut (vm : VM) : Option StepOut :=
  match vm.next_argument with
  | none => none
  | some (a, vm) =>
    match vm.load a with
    | Except.error e => some (StepOut.err vm e)
    | Except.ok a_value =>
      some (StepOut.ok { vm with output := vm.output ++ utf8OfByteChar (a_value % 256) } true)

/-- Opcode 20 (`in a`): `read_exact` one byte from stdin — the byte is
consumed first, then stored via `set`; a failed read (exhausted input)
returns `Ok(false)`, i.e. a halt, not an error. -/
def VM.stepIn (vm : VM) : Option StepOut :=
  match vm.next_argument with
  | none => none
  | some (a, vm) =>
    match vm.input with
    | [] => some (StepOut.ok vm false)
    | byte :: rest =>
      match ({ vm with input := rest } : VM).set a byte with
      | Except.ok vm' => some (StepOut.ok vm' true)
      | Except.error e => some (StepOut.err { vm with input := rest } e)

/-- `VM::cycle` from vm.rs: fetch the opcode word at `pc` (a panic when
`pc` is out of bounds), advance `pc`, dispatch.  Opcode 0 is `Ok(false)`
(halt), opcode 21 is a no-op, and an unknown opcode is an error reported
at `self.pc - 1`. -/
def VM.cycle (vm : VM) : Option StepOut :=
  match vm.next_argument with
  | none => none
  | some (opcode, vm) =>
    match opcode with
    | 0 => some (StepOut.ok vm false)
    | 1 => vm.stepSet
    | 2 => vm.stepPush
    | 3 => vm.stepPop
    | 4 => vm.stepBoolOp (fun b c => b = c)
    | 5 => vm.stepBoolOp (fun b c => b > c)
    | 6 => vm.stepJmp
    | 7 => vm.stepJt
    | 8 => vm.stepJf
    | 9 => vm.stepBinOp wrappingAdd
    | 10 => vm.stepBinOp wrappingMul
    | 11 => vm.stepBinOp wrappingRem
    | 12 => vm.stepBinOp wrappingAnd
    | 13 => vm.stepBinOp wrappingOr
    | 14 => vm.stepNot
    | 15 => vm.stepRmem
    | 16 => vm.stepWmem
    | 17 => vm.stepCall
    | 18 => vm.stepRet
    | 19 => vm.stepOut
    | 20 => vm.stepIn
    | 21 => some (StepOut.ok vm true)
    | code => some (StepOut.err vm (VMErr.unknownOpcode code (vm.pc - 1)))

/-- `VM::new` from vm.rs: zeroed memory and registers, empty stack, pc 0
(with empty ambient input/output streams). -/
def VM.new : VM :=
  { memory := List.replicate ADDRESS_SPACE 0
    registers := List.replicate REGISTER_COUNT 0
    stack := []
    pc := 0
    input := []
    output := [] }

/-- The `exact_chunks(2)` word assembly from `VM::load_program_from_file`:
consecutive byte pairs become `(high << 8) | low`; a trailing odd byte is
dropped. -/
def chunkWords : List Nat → List Nat
  | low :: high :: rest => ((high <<< 8) ||| low) :: chunkWords rest
  | _ => []

/-- Successive stores `memory[index] = word` starting at `index`; Rust
panics (`none`) when the program has more words than the address space. -/
def writeWords : List Nat → Nat → List Nat → Option (List Nat)
  | [], _, memory => some memory
  | word :: rest, index, memory =>
    if index < memory.length then
      writeWords rest (index + 1) (memory.set index word)
    else
      none

/-- `VM::load_program_from_file` from vm.rs, with the file's bytes made
explicit: words are stored verbatim from index 0 up — no masking to 15
bits happens. -/
def VM.load_program_from_file (vm : VM) (bytes : List Nat) : Option VM :=
  match writeWords (chunkWords bytes) 0 vm.memory with
  | some memory => some { vm with memory := memory }
  | none => none

/-- One serde field of the snapshot encoding: a `Vec<u16>`-like sequence or
a single unsigned number. -/
inductive FieldVal where
  | words (values : List Nat)
  | num (value : Nat)
  deriving DecidableEq

/-- The `Serialize` impl for `VM` in vm.rs: `serialize_struct` emits, in
program order, the named fields `memory`, `registers`, `stack`, `pc`. -/
def VM.serializeFields (vm : VM) : List (String × FieldVal) :=
  [("memory", FieldVal.words vm.memory),
   ("registers", FieldVal.words vm.registers),
   ("stack", FieldVal.words vm.stack),
   ("pc", FieldVal.num vm.pc)]

/-- The field values of a snapshot in emission order (what a
non-self-describing format like the snapshot files actually stores). -/
def VM.serializeValues (vm : VM) : List FieldVal :=
  (vm.serializeFields).map Prod.snd

/-- The `visit_seq` arm of the `Deserialize` impl for `VM` in vm.rs: read
four elements in the order memory, registers, stack, pc, then
`copy_from_slice` the two arrays (which panics — `none` — unless the
lengths are exactly 32768 and 8). -/
def VM.deserializeFields (fields : List FieldVal) : Option VM :=
  match fields with
  | [FieldVal.words memory_values, FieldVal.words registers_values,
     FieldVal.words stack, FieldVal.num pc] =>
    if memory_values.length = ADDRESS_SPACE ∧ registers_values.length = REGISTER_COUNT then
      some { memory := memory_values, registers := registers_values,
             stack := stack, pc := pc, input := [], output := [] }
    else
      none
  | _ => none

/-- Drive `VM::cycle` up to `n` times, as a caller's run loop would,
stopping at a halt, an error, or a panic. -/
def VM.run : Nat → VM → VM
  | 0, vm => vm
  | n + 1, vm =>
    match vm.cycle with
    | some (StepOut.ok vm' true) => VM.run n vm'
    | some (StepOut.ok vm' false) => vm'
    | some (StepOut.err vm' _) => vm'
    | none => vm

/-- The VM a driver obtains by loading the program words `prog` into fresh
memory (zero padded to the full address space) and queueing `inp` on
stdin. -/
def progVM (prog inp : List Nat) : VM :=
  { memory := prog ++ List.replicate (ADDRESS_SPACE - prog.length) 0
    registers := List.replicate REGISTER_COUNT 0
    stack := []
    pc := 0
    input := inp
    output := [] }

/-- The caller's VM after a `cycle` call, whether it returned `Ok` or
`Err` (the Rust method mutates `self` in place in both cases). -/
def StepOut.state : StepOut → VM
  | StepOut.ok vm _ => vm
  | StepOut.err vm _ => vm

/-- Whether an error is an invalid-store error (of any payload). -/
def VMErr.isInvalidStore : VMErr → Bool
  | VMErr.invalidStore _ _ => true
  | _ => false

/-- Field order the specification's snapshot-format sections claim
(written from the spec's words, for comparison with the serializer):
memory, registers, `pc`, then the stack as a trailing run. -/
def specSnapshotFieldOrder : List String :=
  ["memory", "registers", "pc", "stack"]

/-- Well-formedness a real `VM` value enjoys by typing: every stored word
(memory, registers, stack) fits in 16 bits — the `u16` domain — and every
byte still queued on stdin fits in 8 bits. -/
def VM.WfState (vm : VM) : Prop :=
  (∀ x ∈ vm.memory, x < 65536) ∧ (∀ x ∈ vm.registers, x < 65536)
    ∧ (∀ x ∈ vm.stack, x < 65536) ∧ (∀ x ∈ vm.input, x < 256)

instance (vm : VM) : Decidable vm.WfState := by
  unfold VM.WfState; infer_instance

theorem ADDRESS_SPACE_eq : ADDRESS_SPACE = 32768 := rfl

theorem REGISTER_COUNT_eq : REGISTER_COUNT = 8 := rfl

/-- Reading an argument succeeds exactly when `pc` indexes into memory,
and it advances `pc` by one. -/
theorem VM.next_argument_eq_some {vm : VM} {v : Nat} (h : vm.memory[vm.pc]? = some v) :
    vm.next_argument = some (v, { vm with pc := vm.pc + 1 }) := by
  unfold VM.next_argument
  rw [h]

theorem VM.next_argument_eq_none {vm : VM} (h : vm.memory[vm.pc]? = none) :
    vm.next_argument = none := by
  unfold VM.next_argument
  rw [h]

/-- Inversion for `next_argument`: the value read comes from `memory[pc]`
and the state only advances `pc`. -/
theorem VM.next_argument_some {vm vm' : VM} {v : Nat}
    (h : vm.next_argument = some (v, vm')) :
    vm.memory[vm.pc]? = some v ∧ vm' = { vm with pc := vm.pc + 1 } := by
  unfold VM.next_argument at h
  split at h
  case h_1 x heq =>
    simp only [Option.some.injEq, Prod.mk.injEq] at h
    exact ⟨h.1 ▸ heq, h.2.symm⟩
  case h_2 => exact absurd h (by simp)

/-- C6: operand resolution.  Literal operands in `[0, 32767]` resolve to
themselves; operands in `[32768, 32775]` resolve to the register they
name; anything above 32775 fails with an invalid-load error.  `load`
borrows the VM immutably (Rust `&self`), so the state is unchanged by
construction — the function returns only a value or an error. -/
theorem c6_load_resolution (vm : VM) :
    (∀ v, v ≤ 32767 → vm.load v = Except.ok v)
    ∧ (∀ r, 32768 ≤ r → r ≤ 32775 →
        vm.load r = Except.ok (vm.registers.getD (r - 32768) 0))
    ∧ (∀ a, 32775 < a → vm.load a = Except.error (VMErr.invalidLoad a vm.pc)) := by
  refine ⟨fun v hv => ?_, fun r h1 h2 => ?_, fun a ha => ?_⟩
  · unfold VM.load
    rw [if_pos hv]
  · unfold VM.load
    rw [if_neg (by omega), if_pos h2]
  · unfold VM.load
    rw [if_neg (by omega), if_neg (by omega)]

/-- Witness for C6 at concrete operands: a literal, a register reference
(after setting register 3 to 77), and the invalid operand 32776. -/
theorem c6_load_resolution_witness :
    (5 : Nat) ≤ 32767 ∧ VM.new.load 5 = Except.ok 5
    ∧ { VM.new with registers := List.replicate 8 77 : VM }.load 32771 = Except.ok 77
    ∧ VM.new.load 32776 = Except.error (VMErr.invalidLoad 32776 0) := by
  refine ⟨by decide, (c6_load_resolution VM.new).1 5 (by decide), ?_, ?_⟩
  · rw [(c6_load_resolution _).2.1 32771 (by decide) (by decide)]
    rfl
  · exact (c6_load_resolution VM.new).2.2 32776 (by decide)

/-- C2 counterexample: the serializer emits the named fields in the order
memory, registers, stack, pc — the stack is the third field and `pc` the
last, not `pc` third with the stack as a trailing run as the claim
states. -/
theorem c2_counterexample :
    (VM.serializeFields VM.new).map Prod.fst = ["memory", "registers", "stack", "pc"]
    ∧ (VM.serializeFields VM.new).map Prod.fst ≠ specSnapshotFieldOrder := by
  constructor
  · rfl
  · decide

/-- C2 amended: snapshot serialization emits the VM's fields in the fixed
order memory array, register array, stack contents, then `pc` — `pc`
comes after the stack, and the stack is an ordinary length-carrying
sequence field rather than a trailing implicit-length run. -/
theorem c2_amended_serialization_order (vm : VM) :
    (VM.serializeFields vm).map Prod.fst = ["memory", "registers", "stack", "pc"]
    ∧ VM.serializeValues vm =
      [FieldVal.words vm.memory, FieldVal.words vm.registers,
       FieldVal.words vm.stack, FieldVal.num vm.pc] := by
  exact ⟨rfl, rfl⟩

/-- C3: snapshot round-trip.  Serializing any VM whose arrays have their
typing-guaranteed lengths and deserializing the result reconstructs a VM
with identical memory, registers, stack and pc, and therefore any
subsequent run of the single-step loop — given the same remaining input —
is the same state-by-state, so its output bytes are identical to
continuing the original VM. -/
theorem c3_snapshot_roundtrip (vm : VM)
    (hm : vm.memory.length = ADDRESS_SPACE) (hr : vm.registers.length = REGISTER_COUNT) :
    ∃ vm', VM.deserializeFields (VM.serializeValues vm) = some vm'
      ∧ vm'.memory = vm.memory ∧ vm'.registers = vm.registers
      ∧ vm'.stack = vm.stack ∧ vm'.pc = vm.pc
      ∧ ∀ inp n, VM.run n { vm' with input := inp, output := [] }
          = VM.run n { vm with input := inp, output := [] } := by
  refine ⟨{ memory := vm.memory, registers := vm.registers, stack := vm.stack,
            pc := vm.pc, input := [], output := [] }, ?_, rfl, rfl, rfl, rfl, fun inp n => rfl⟩
  show (if vm.memory.length = ADDRESS_SPACE ∧ vm.registers.length = REGISTER_COUNT
        then some ({ memory := vm.memory, registers := vm.registers, stack := vm.stack,
                     pc := vm.pc, input := [], output := [] } : VM)
        else none) = _
  rw [if_pos ⟨hm, hr⟩]

/-- Witness for C3 at the fresh VM: its array lengths are the required
ones and the round trip reconstructs it exactly. -/
theorem c3_snapshot_roundtrip_witness :
    VM.new.memory.length = ADDRESS_SPACE ∧ VM.new.registers.length = REGISTER_COUNT
    ∧ ∃ vm', VM.deserializeFields (VM.serializeValues VM.new) = some vm'
      ∧ vm'.memory = VM.new.memory ∧ vm'.registers = VM.new.registers
      ∧ vm'.stack = VM.new.stack ∧ vm'.pc = VM.new.pc
      ∧ ∀ inp n, VM.run n { vm' with input := inp, output := [] }
          = VM.run n { VM.new with input := inp, output := [] } :=
  ⟨by simp [VM.new], by simp [VM.new],
   c3_snapshot_roundtrip VM.new (by simp [VM.new]) (by simp [VM.new])⟩

theorem VM.load_literal {v : Nat} (vm : VM) (h : v ≤ 32767) :
    vm.load v = Except.ok v := by
  unfold VM.load
  rw [if_pos h]

theorem VM.load_register {r : Nat} (vm : VM) (h1 : 32768 ≤ r) (h2 : r ≤ 32775) :
    vm.load r = Except.ok (vm.registers.getD (r - 32768) 0) := by
  unfold VM.load
  rw [if_neg (by omega), if_pos h2]

theorem VM.load_invalid {a : Nat} (vm : VM) (h : 32775 < a) :
    vm.load a = Except.error (VMErr.invalidLoad a vm.pc) := by
  unfold VM.load
  rw [if_neg (by omega), if_neg (by omega)]

/-- Resolution of any operand up to 32775 succeeds. -/
theorem VM.load_ok_of_le {a : Nat} (vm : VM) (h : a ≤ 32775) :
    ∃ v, vm.load a = Except.ok v := by
  by_cases hlit : a ≤ 32767
  · exact ⟨a, vm.load_literal hlit⟩
  · exact ⟨_, vm.load_register (by omega) h⟩

/-- C10: a `mod` instruction whose divisor operand resolves to the literal
0 makes `cycle` crash — the embedded step returns `none` (the Rust
`Wrapping<u16>` remainder panics on a zero divisor), not an `Ok` and not
any `Err`: the zero-divisor case is unguarded. -/
theorem c10_mod_zero_divisor_crash (vm : VM) (b : Nat)
    (hop : vm.memory[vm.pc]? = some 11)
    (hb : vm.memory[vm.pc + 2]? = some b) (hble : b ≤ 32775)
    (hc : vm.memory[vm.pc + 3]? = some 0) :
    vm.cycle = none := by
  have h1 : vm.cycle = VM.stepBinOp wrappingRem { vm with pc := vm.pc + 1 } := by
    unfold VM.cycle
    rw [VM.next_argument_eq_some hop]
  rw [h1]
  unfold VM.stepBinOp
  cases hma : vm.memory[vm.pc + 1]? with
  | none =>
    rw [@VM.next_argument_eq_none { vm with pc := vm.pc + 1 } hma]
  | some a =>
    rw [@VM.next_argument_eq_some { vm with pc := vm.pc + 1 } a hma]
    show (match ({ vm with pc := vm.pc + 2 } : VM).next_argument with
      | none => none
      | some (b, vm) =>
        match vm.next_argument with
        | none => none
        | some (c, vm) =>
          match vm.load b with
          | Except.error e => some (StepOut.err vm e)
          | Except.ok b_value =>
            match vm.load c with
            | Except.error e => some (StepOut.err vm e)
            | Except.ok c_value =>
              match wrappingRem b_value c_value with
              | none => none
              | some raw =>
                match vm.set a (raw % MAX_VALUE) with
                | Except.ok vm' => some (StepOut.ok vm' true)
                | Except.error e => some (StepOut.err vm e)) = none
    rw [@VM.next_argument_eq_some { vm with pc := vm.pc + 2 } b hb]
    show (match ({ vm with pc := vm.pc + 3 } : VM).next_argument with
      | none => none
      | some (c, vm') =>
        match vm'.load b with
        | Except.error e => some (StepOut.err vm' e)
        | Except.ok b_value =>
          match vm'.load c with
          | Except.error e => some (StepOut.err vm' e)
          | Except.ok c_value =>
            match wrappingRem b_value c_value with
            | none => none
            | some raw =>
              match vm'.set a (raw % MAX_VALUE) with
              | Except.ok vm'' => some (StepOut.ok vm'' true)
              | Except.error e => some (StepOut.err vm' e)) = none
    rw [@VM.next_argument_eq_some { vm with pc := vm.pc + 3 } 0 hc]
    obtain ⟨bv, hbv⟩ := VM.load_ok_of_le { vm with pc := vm.pc + 4 } hble
    show (match ({ vm with pc := vm.pc + 4 } : VM).load b with
      | Except.error e => some (StepOut.err { vm with pc := vm.pc + 4 } e)
      | Except.ok b_value =>
        match ({ vm with pc := vm.pc + 4 } : VM).load 0 with
        | Except.error e => some (StepOut.err { vm with pc := vm.pc + 4 } e)
        | Except.ok c_value =>
          match wrappingRem b_value c_value with
          | none => none
          | some raw =>
            match ({ vm with pc := vm.pc + 4 } : VM).set a (raw % MAX_VALUE) with
            | Except.ok vm'' => some (StepOut.ok vm'' true)
            | Except.error e => some (StepOut.err { vm with pc := vm.pc + 4 } e)) = none
    rw [hbv, VM.load_literal _ (by omega)]
    show (match wrappingRem bv 0 with
      | none => none
      | some raw =>
        match ({ vm with pc := vm.pc + 4 } : VM).set a (raw % MAX_VALUE) with
        | Except.ok vm'' => some (StepOut.ok vm'' true)
        | Except.error e => some (StepOut.err { vm with pc := vm.pc + 4 } e)) = none
    rfl


theorem MAX_VALUE_eq : MAX_VALUE = 32768 := rfl

/-- A `set` whose destination names a register and whose source resolves
writes exactly that register. -/
theorem VM.set_register {vm : VM} {d s sv : Nat} (hld : vm.load s = Except.ok sv)
    (h1 : 32768 ≤ d) (h2 : d ≤ 32775) :
    vm.set d s = Except.ok { vm with registers := vm.registers.set (d - 32768) sv } := by
  unfold VM.set
  rw [hld]
  simp only
  rw [if_pos ⟨h1, h2⟩]

/-- A `set` whose destination does not name a register fails with an
invalid-store error — but only after the source has resolved. -/
theorem VM.set_invalidStore {vm : VM} {d s sv : Nat} (hld : vm.load s = Except.ok sv)
    (hd : ¬(32768 ≤ d ∧ d ≤ 32775)) :
    vm.set d s = Except.error (VMErr.invalidStore d vm.pc) := by
  unfold VM.set
  rw [hld]
  simp only
  rw [if_neg hd]

/-- A `set` whose source fails to resolve propagates the load error,
whatever the destination is. -/
theorem VM.set_load_err {vm : VM} {d s : Nat} {e : VMErr}
    (hld : vm.load s = Except.error e) :
    vm.set d s = Except.error e := by
  unfold VM.set
  rw [hld]

/-- Evaluation of a `binary_operation!` arm whose destination operand
names a register and whose two source operands are literals. -/
theorem VM.stepBinOp_literal (op : Nat → Nat → Option Nat) (vm : VM) (d b c raw : Nat)
    (hd : vm.memory[vm.pc]? = some d) (hd1 : 32768 ≤ d) (hd2 : d ≤ 32775)
    (hb : vm.memory[vm.pc + 1]? = some b) (hblit : b ≤ 32767)
    (hc : vm.memory[vm.pc + 2]? = some c) (hclit : c ≤ 32767)
    (hraw : op b c = some raw) :
    vm.stepBinOp op = some (StepOut.ok { vm with
      pc := vm.pc + 3
      registers := vm.registers.set (d - 32768) (raw % MAX_VALUE) } true) := by
  have hb' : vm.memory[vm.pc + 1]? = some b := hb
  have hc' : vm.memory[vm.pc + 1 + 1]? = some c := hc
  simp only [VM.stepBinOp, VM.next_argument, hd, hb', hc']
  rw [VM.load_literal _ hblit, VM.load_literal _ hclit]
  simp only [hraw]
  rw [VM.set_register
    (VM.load_literal _ (by have h : MAX_VALUE = 32768 := rfl; rw [h]; omega)) hd1 hd2]

/-- Reading the memory of a program-loaded VM inside the program region
returns the program word (the zero padding lies beyond it). -/
theorem progVM_fetch {prog : List Nat} (inp : List Nat) {i v : Nat}
    (hv : prog[i]? = some v) :
    (progVM prog inp).memory[i]? = some v := by
  have hlen : i < prog.length := by
    by_contra hge
    rw [List.getElem?_eq_none (by omega)] at hv
    exact Option.noConfusion hv
  show (prog ++ List.replicate (ADDRESS_SPACE - prog.length) 0)[i]? = some v
  rw [List.getElem?_append_left hlen]
  exact hv

/-- Witness for C10: a `mod` instruction with destination register 0,
dividend literal 7 and divisor literal 0 crashes the cycle. -/
theorem c10_mod_zero_divisor_crash_witness :
    (progVM [11, 32768, 7, 0] []).memory[(progVM [11, 32768, 7, 0] []).pc]? = some 11
    ∧ (progVM [11, 32768, 7, 0] []).memory[(progVM [11, 32768, 7, 0] []).pc + 2]? = some 7
    ∧ (7 : Nat) ≤ 32775
    ∧ (progVM [11, 32768, 7, 0] []).memory[(progVM [11, 32768, 7, 0] []).pc + 3]? = some 0
    ∧ (progVM [11, 32768, 7, 0] []).cycle = none :=
  ⟨@progVM_fetch [11, 32768, 7, 0] [] (progVM [11, 32768, 7, 0] []).pc 11 rfl,
   @progVM_fetch [11, 32768, 7, 0] [] ((progVM [11, 32768, 7, 0] []).pc + 2) 7 rfl,
   by decide,
   @progVM_fetch [11, 32768, 7, 0] [] ((progVM [11, 32768, 7, 0] []).pc + 3) 0 rfl,
   c10_mod_zero_divisor_crash (progVM [11, 32768, 7, 0] []) 7
     (@progVM_fetch [11, 32768, 7, 0] [] (progVM [11, 32768, 7, 0] []).pc 11 rfl)
     (@progVM_fetch [11, 32768, 7, 0] [] ((progVM [11, 32768, 7, 0] []).pc + 2) 7 rfl)
     (by decide)
     (@progVM_fetch [11, 32768, 7, 0] [] ((progVM [11, 32768, 7, 0] []).pc + 3) 0 rfl)⟩

/-- Dispatch of one cycle at an opcode-10 (`mult`) word. -/
theorem VM.cycle_op_mult {vm : VM} (hop : vm.memory[vm.pc]? = some 10) :
    vm.cycle = VM.stepBinOp wrappingMul { vm with pc := vm.pc + 1 } := by
  unfold VM.cycle
  rw [VM.next_argument_eq_some hop]

/-- Dispatch of one cycle at an opcode-9 (`add`) word. -/
theorem VM.cycle_op_add {vm : VM} (hop : vm.memory[vm.pc]? = some 9) :
    vm.cycle = VM.stepBinOp wrappingAdd { vm with pc := vm.pc + 1 } := by
  unfold VM.cycle
  rw [VM.next_argument_eq_some hop]

/-- C4: for any state whose current instruction is `mult` with a register
destination and literal resolved operands `b, c ≤ 32767`, the stored
value is `(b * c) % 32768`: the `Wrapping<u16>` intermediate (reduction
mod 2^16) never affects the final residue because 32768 divides 65536,
so the result agrees with full-width arithmetic reduced only at the end;
and an `add` with resolved operands 32767 and 1 stores 0. -/
theorem c4_mult_full_width :
    (∀ (vm : VM) (d b c : Nat),
      vm.memory[vm.pc]? = some 10 →
      vm.memory[vm.pc + 1]? = some d → 32768 ≤ d → d ≤ 32775 →
      vm.memory[vm.pc + 2]? = some b → b ≤ 32767 →
      vm.memory[vm.pc + 3]? = some c → c ≤ 32767 →
      vm.cycle = some (StepOut.ok { vm with
        pc := vm.pc + 4
        registers := vm.registers.set (d - 32768) ((b * c) % 32768) } true))
    ∧ (∀ (vm : VM) (d : Nat),
      vm.memory[vm.pc]? = some 9 →
      vm.memory[vm.pc + 1]? = some d → 32768 ≤ d → d ≤ 32775 →
      vm.memory[vm.pc + 2]? = some 32767 →
      vm.memory[vm.pc + 3]? = some 1 →
      vm.cycle = some (StepOut.ok { vm with
        pc := vm.pc + 4
        registers := vm.registers.set (d - 32768) 0 } true)) := by
  constructor
  · intro vm d b c hop hd hd1 hd2 hb hblit hc hclit
    rw [VM.cycle_op_mult hop]
    rw [VM.stepBinOp_literal wrappingMul { vm with pc := vm.pc + 1 } d b c ((b * c) % 65536)
      hd hd1 hd2 hb hblit hc hclit rfl]
    have hmod : (b * c) % 65536 % MAX_VALUE = (b * c) % 32768 := by
      rw [MAX_VALUE_eq]
      exact Nat.mod_mod_of_dvd _ (by norm_num)
    rw [hmod]
  · intro vm d hop hd hd1 hd2 hb hc
    rw [VM.cycle_op_add hop]
    rw [VM.stepBinOp_literal wrappingAdd { vm with pc := vm.pc + 1 } d 32767 1 ((32767 + 1) % 65536)
      hd hd1 hd2 hb (by omega) hc (by omega) rfl]
    rfl

/-- Witness for C4 at the example values of the specification: `mult` of
the literals 20000 and 20000 into register 0 stores the full-width
product reduced mod 32768 (which is 1024). -/
theorem c4_mult_full_width_witness :
    (progVM [10, 32768, 20000, 20000] []).memory[(progVM [10, 32768, 20000, 20000] []).pc]?
        = some 10
    ∧ (progVM [10, 32768, 20000, 20000] []).memory[(progVM [10, 32768, 20000, 20000] []).pc + 2]?
        = some 20000
    ∧ (20000 : Nat) ≤ 32767
    ∧ (20000 * 20000) % 32768 = 1024
    ∧ (progVM [10, 32768, 20000, 20000] []).cycle
        = some (StepOut.ok { progVM [10, 32768, 20000, 20000] [] with
            pc := (progVM [10, 32768, 20000, 20000] []).pc + 4
            registers := (progVM [10, 32768, 20000, 20000] []).registers.set
              (32768 - 32768) ((20000 * 20000) % 32768) } true) :=
  ⟨@progVM_fetch [10, 32768, 20000, 20000] [] (progVM [10, 32768, 20000, 20000] []).pc 10 rfl,
   @progVM_fetch [10, 32768, 20000, 20000] []
     ((progVM [10, 32768, 20000, 20000] []).pc + 2) 20000 rfl,
   by decide, by decide,
   c4_mult_full_width.1 (progVM [10, 32768, 20000, 20000] []) 32768 20000 20000
     (@progVM_fetch [10, 32768, 20000, 20000] [] (progVM [10, 32768, 20000, 20000] []).pc 10 rfl)
     (@progVM_fetch [10, 32768, 20000, 20000] []
       ((progVM [10, 32768, 20000, 20000] []).pc + 1) 32768 rfl)
     (by decide) (by decide)
     (@progVM_fetch [10, 32768, 20000, 20000] []
       ((progVM [10, 32768, 20000, 20000] []).pc + 2) 20000 rfl)
     (by decide)
     (@progVM_fetch [10, 32768, 20000, 20000] []
       ((progVM [10, 32768, 20000, 20000] []).pc + 3) 20000 rfl)
     (by decide)⟩

/-- C7 counterexample: with destination 0 (not a register) and the invalid
source operand 40000, `set` fails with an invalid-load error — not an
invalid-store one — because the source is resolved first. -/
theorem c7_counterexample :
    VM.new.set 0 40000 = Except.error (VMErr.invalidLoad 40000 0)
    ∧ (VMErr.invalidLoad 40000 0).isInvalidStore = false :=
  ⟨VM.set_load_err (VM.load_invalid VM.new (by decide)), rfl⟩

/-- C7 amended: `set` resolves its source first, so an unresolvable source
fails with `invalidLoad` whatever the destination is; with a resolvable
source, a destination outside `[32768, 32775]` fails with `invalidStore`,
and a register destination stores the resolved source there, leaving
every other register unchanged. -/
theorem c7_amended (vm : VM) :
    (∀ d s e, vm.load s = Except.error e → vm.set d s = Except.error e)
    ∧ (∀ d s sv, vm.load s = Except.ok sv → ¬(32768 ≤ d ∧ d ≤ 32775) →
      vm.set d s = Except.error (VMErr.invalidStore d vm.pc))
    ∧ (∀ d s sv, vm.load s = Except.ok sv → 32768 ≤ d → d ≤ 32775 →
      vm.set d s = Except.ok { vm with registers := vm.registers.set (d - 32768) sv }
      ∧ ∀ i, i ≠ d - 32768 → (vm.registers.set (d - 32768) sv)[i]? = vm.registers[i]?) := by
  refine ⟨fun d s e hld => VM.set_load_err hld,
          fun d s sv hld hd => VM.set_invalidStore hld hd,
          fun d s sv hld h1 h2 => ⟨VM.set_register hld h1 h2, fun i hi => ?_⟩⟩
  exact List.getElem?_set_ne (by omega)

/-- Witness for C7 at concrete inputs: storing the literal 5 at
destination 0 is an invalid store (once the source resolves), while
storing it at destination 32770 writes register 2 and leaves register 0
untouched. -/
theorem c7_amended_witness :
    VM.new.set 0 5 = Except.error (VMErr.invalidStore 0 0)
    ∧ VM.new.set 32770 5
        = Except.ok { VM.new with registers := VM.new.registers.set (32770 - 32768) 5 }
    ∧ (VM.new.registers.set (32770 - 32768) 5)[0]? = VM.new.registers[0]? :=
  ⟨(c7_amended VM.new).2.1 0 5 5 (VM.load_literal VM.new (by decide)) (by decide),
   ((c7_amended VM.new).2.2 32770 5 5 (VM.load_literal VM.new (by decide))
     (by decide) (by decide)).1,
   ((c7_amended VM.new).2.2 32770 5 5 (VM.load_literal VM.new (by decide))
     (by decide) (by decide)).2 0 (by decide)⟩

/-- Dispatch of one cycle at an opcode-19 (`out`) word. -/
theorem VM.cycle_op_out {vm : VM} (hop : vm.memory[vm.pc]? = some 19) :
    vm.cycle = VM.stepOut { vm with pc := vm.pc + 1 } := by
  unfold VM.cycle
  rw [VM.next_argument_eq_some hop]

/-- Evaluation of the `out` arm with a literal operand. -/
theorem VM.stepOut_literal {vm : VM} {v : Nat}
    (ha : vm.memory[vm.pc]? = some v) (hv : v ≤ 32767) :
    vm.stepOut = some (StepOut.ok { vm with
      pc := vm.pc + 1
      output := vm.output ++ utf8OfByteChar (v % 256) } true) := by
  simp only [VM.stepOut, VM.next_argument, ha]
  rw [VM.load_literal _ hv]

/-- C8 amended: `out` appends to stdout the UTF-8 encoding of the char
whose code point is the resolved value truncated to a byte: that is the
single byte `v % 256` when `v % 256 < 128`, but two bytes (a `0xC2`/`0xC3`
lead and a continuation byte) when `v % 256 ≥ 128`, because Rust prints
the `char` `v as u8 as char` rather than writing the raw byte. -/
theorem c8_amended (vm : VM) (v : Nat)
    (hop : vm.memory[vm.pc]? = some 19) (ha : vm.memory[vm.pc + 1]? = some v)
    (hv : v ≤ 32767) :
    vm.cycle = some (StepOut.ok { vm with
      pc := vm.pc + 2
      output := vm.output ++ utf8OfByteChar (v % 256) } true)
    ∧ (v % 256 < 128 → utf8OfByteChar (v % 256) = [v % 256])
    ∧ (128 ≤ v % 256 →
        utf8OfByteChar (v % 256) = [192 ||| ((v % 256) >>> 6), 128 ||| ((v % 256) &&& 63)]
        ∧ (utf8OfByteChar (v % 256)).length = 2) := by
  refine ⟨?_, fun h => ?_, fun h => ?_⟩
  · rw [VM.cycle_op_out hop]
    rw [@VM.stepOut_literal { vm with pc := vm.pc + 1 } v ha hv]
  · unfold utf8OfByteChar
    rw [if_pos h]
  · unfold utf8OfByteChar
    rw [if_neg (by omega)]
    exact ⟨rfl, rfl⟩

/-- Witness for C8 in the ASCII range: `out` of the literal 65 appends
exactly the single byte 65. -/
theorem c8_amended_witness :
    (progVM [19, 65] []).memory[(progVM [19, 65] []).pc]? = some 19
    ∧ (65 : Nat) % 256 < 128
    ∧ (progVM [19, 65] []).cycle = some (StepOut.ok { progVM [19, 65] [] with
        pc := (progVM [19, 65] []).pc + 2
        output := (progVM [19, 65] []).output ++ utf8OfByteChar (65 % 256) } true)
    ∧ utf8OfByteChar (65 % 256) = [65 % 256] :=
  ⟨@progVM_fetch [19, 65] [] (progVM [19, 65] []).pc 19 rfl,
   by decide,
   (c8_amended (progVM [19, 65] []) 65
     (@progVM_fetch [19, 65] [] (progVM [19, 65] []).pc 19 rfl)
     (@progVM_fetch [19, 65] [] ((progVM [19, 65] []).pc + 1) 65 rfl)
     (by decide)).1,
   (c8_amended (progVM [19, 65] []) 65
     (@progVM_fetch [19, 65] [] (progVM [19, 65] []).pc 19 rfl)
     (@progVM_fetch [19, 65] [] ((progVM [19, 65] []).pc + 1) 65 rfl)
     (by decide)).2.1 (by decide)⟩

/-- C8 counterexample: `out` of the resolved value 200 writes the two
bytes 195 and 136 (the UTF-8 encoding of the char with code point 200),
not the single byte `200 & 0xFF = 200`. -/
theorem c8_counterexample :
    (progVM [19, 200] []).cycle
      = some (StepOut.ok { progVM [19, 200] [] with
          pc := (progVM [19, 200] []).pc + 2
          output := (progVM [19, 200] []).output ++ [195, 136] } true)
    ∧ ([195, 136] : List Nat) ≠ [200]
    ∧ ([195, 136] : List Nat).length ≠ 1 := by
  refine ⟨?_, by decide, by decide⟩
  rw [VM.cycle_op_out (@progVM_fetch [19, 200] [] (progVM [19, 200] []).pc 19 rfl)]
  rw [@VM.stepOut_literal { progVM [19, 200] [] with pc := (progVM [19, 200] []).pc + 1 } 200
    (@progVM_fetch [19, 200] [] ((progVM [19, 200] []).pc + 1) 200 rfl) (by decide)]
  rfl

/-- Dispatch of one cycle at an opcode-20 (`in`) word. -/
theorem VM.cycle_op_in {vm : VM} (hop : vm.memory[vm.pc]? = some 20) :
    vm.cycle = VM.stepIn { vm with pc := vm.pc + 1 } := by
  unfold VM.cycle
  rw [VM.next_argument_eq_some hop]

/-- Evaluation of the `in` arm when a byte is available: the byte is
consumed and stored verbatim into the destination register. -/
theorem VM.stepIn_byte {vm : VM} {d byte : Nat} {rest : List Nat}
    (ha : vm.memory[vm.pc]? = some d) (hd1 : 32768 ≤ d) (hd2 : d ≤ 32775)
    (hin : vm.input = byte :: rest) (hbyte : byte ≤ 255) :
    vm.stepIn = some (StepOut.ok { vm with
      pc := vm.pc + 1
      input := rest
      registers := vm.registers.set (d - 32768) byte } true) := by
  simp only [VM.stepIn, VM.next_argument, ha, hin]
  rw [@VM.set_register { vm with pc := vm.pc + 1, input := rest } d byte byte
    (VM.load_literal _ (by omega)) hd1 hd2]

/-- Evaluation of the `in` arm on exhausted input: the failed `read_exact`
maps to `Ok(false)` — a halt, not an error. -/
theorem VM.stepIn_exhausted {vm : VM} {d : Nat}
    (ha : vm.memory[vm.pc]? = some d) (hin : vm.input = []) :
    vm.stepIn = some (StepOut.ok { vm with pc := vm.pc + 1 } false) := by
  simp only [VM.stepIn, VM.next_argument, ha, hin]

/-- C5 amended: `in` stores the next available input byte verbatim into
its register destination — carriage-return bytes included, none are
skipped — and on input exhaustion it signals Halt (`Ok(false)`), not an
error. -/
theorem c5_in_verbatim_amended :
    (∀ (vm : VM) (d byte : Nat) (rest : List Nat),
      vm.memory[vm.pc]? = some 20 → vm.memory[vm.pc + 1]? = some d →
      32768 ≤ d → d ≤ 32775 → vm.input = byte :: rest → byte ≤ 255 →
      vm.cycle = some (StepOut.ok { vm with
        pc := vm.pc + 2
        input := rest
        registers := vm.registers.set (d - 32768) byte } true))
    ∧ (∀ (vm : VM) (d : Nat),
      vm.memory[vm.pc]? = some 20 → vm.memory[vm.pc + 1]? = some d → vm.input = [] →
      vm.cycle = some (StepOut.ok { vm with pc := vm.pc + 2 } false)) := by
  constructor
  · intro vm d byte rest hop hd hd1 hd2 hin hbyte
    rw [VM.cycle_op_in hop]
    rw [@VM.stepIn_byte { vm with pc := vm.pc + 1 } d byte rest hd hd1 hd2 hin hbyte]
  · intro vm d hop hd hin
    rw [VM.cycle_op_in hop]
    rw [@VM.stepIn_exhausted { vm with pc := vm.pc + 1 } d hd hin]

/-- C5 counterexample: with the carriage return 0x0D (13) first in the
input, `in` stores 13 itself into register 0 and leaves the following
byte 55 unread — the carriage return is not skipped. -/
theorem c5_counterexample :
    (progVM [20, 32768] [13, 55]).cycle
      = some (StepOut.ok { progVM [20, 32768] [13, 55] with
          pc := (progVM [20, 32768] [13, 55]).pc + 2
          input := [55]
          registers := (progVM [20, 32768] [13, 55]).registers.set (32768 - 32768) 13 } true)
    ∧ (13 : Nat) ≠ 55 := by
  refine ⟨?_, by decide⟩
  rw [VM.cycle_op_in (@progVM_fetch [20, 32768] [13, 55] (progVM [20, 32768] [13, 55]).pc 20 rfl)]
  rw [@VM.stepIn_byte
    { progVM [20, 32768] [13, 55] with pc := (progVM [20, 32768] [13, 55]).pc + 1 }
    32768 13 [55]
    (@progVM_fetch [20, 32768] [13, 55] ((progVM [20, 32768] [13, 55]).pc + 1) 32768 rfl)
    (by decide) (by decide) rfl (by decide)]

/-- Witness for C5 amended: reading the byte 55 stores it into register 0
and consumes it; reading on empty input halts. -/
theorem c5_in_verbatim_amended_witness :
    (progVM [20, 32768] [55]).memory[(progVM [20, 32768] [55]).pc]? = some 20
    ∧ (progVM [20, 32768] [55]).cycle
        = some (StepOut.ok { progVM [20, 32768] [55] with
            pc := (progVM [20, 32768] [55]).pc + 2
            input := []
            registers := (progVM [20, 32768] [55]).registers.set (32768 - 32768) 55 } true)
    ∧ (progVM [20, 32768] []).cycle
        = some (StepOut.ok { progVM [20, 32768] [] with
            pc := (progVM [20, 32768] []).pc + 2 } false) :=
  ⟨@progVM_fetch [20, 32768] [55] (progVM [20, 32768] [55]).pc 20 rfl,
   c5_in_verbatim_amended.1 (progVM [20, 32768] [55]) 32768 55 []
     (@progVM_fetch [20, 32768] [55] (progVM [20, 32768] [55]).pc 20 rfl)
     (@progVM_fetch [20, 32768] [55] ((progVM [20, 32768] [55]).pc + 1) 32768 rfl)
     (by decide) (by decide) rfl (by decide),
   c5_in_verbatim_amended.2 (progVM [20, 32768] []) 32768
     (@progVM_fetch [20, 32768] [] (progVM [20, 32768] []).pc 20 rfl)
     (@progVM_fetch [20, 32768] [] ((progVM [20, 32768] []).pc + 1) 32768 rfl) rfl⟩

/-- Dispatch of one cycle at an opcode-1 (`set`) word. -/
theorem VM.cycle_op_set {vm : VM} (hop : vm.memory[vm.pc]? = some 1) :
    vm.cycle = VM.stepSet { vm with pc := vm.pc + 1 } := by
  unfold VM.cycle
  rw [VM.next_argument_eq_some hop]

/-- Evaluation of the `set` arm whose destination operand is not a
register: both operands have been fetched (pc advanced past them) when
the invalid-store error is returned. -/
theorem VM.stepSet_invalidStore {vm : VM} {a b : Nat}
    (ha : vm.memory[vm.pc]? = some a) (hb : vm.memory[vm.pc + 1]? = some b)
    (hbl : b ≤ 32767) (hna : ¬(32768 ≤ a ∧ a ≤ 32775)) :
    vm.stepSet = some (StepOut.err { vm with pc := vm.pc + 2 }
      (VMErr.invalidStore a (vm.pc + 2))) := by
  simp only [VM.stepSet, VM.next_argument, ha, hb]
  rw [@VM.set_invalidStore { vm with pc := vm.pc + 1 + 1 } a b b
    (VM.load_literal _ hbl) hna]

/-- C1 counterexample: executing `set 0 0` (destination 0 is not a
register) fails with an invalid-store error, and the pc after the failed
step is the start pc plus 3 — the opcode and both operands stay
consumed; pc is not rolled back to its pre-step value. -/
theorem c1_counterexample :
    (progVM [1, 0, 0] []).cycle
      = some (StepOut.err { progVM [1, 0, 0] [] with pc := (progVM [1, 0, 0] []).pc + 3 }
          (VMErr.invalidStore 0 ((progVM [1, 0, 0] []).pc + 3)))
    ∧ (progVM [1, 0, 0] []).pc + 3 ≠ (progVM [1, 0, 0] []).pc := by
  refine ⟨?_, by decide⟩
  rw [VM.cycle_op_set (@progVM_fetch [1, 0, 0] [] (progVM [1, 0, 0] []).pc 1 rfl)]
  rw [@VM.stepSet_invalidStore { progVM [1, 0, 0] [] with pc := (progVM [1, 0, 0] []).pc + 1 } 0 0
    (@progVM_fetch [1, 0, 0] [] ((progVM [1, 0, 0] []).pc + 1) 0 rfl)
    (@progVM_fetch [1, 0, 0] [] ((progVM [1, 0, 0] []).pc + 2) 0 rfl)
    (by decide) (by decide)]

/-- Inversion for `popTop`. -/
theorem VM.popTop_some {vm : VM} {tos : Nat} {vm' : VM}
    (h : vm.popTop = some (tos, vm')) :
    vm' = { vm with stack := vm.stack.dropLast } ∧ vm.stack.getLast? = some tos := by
  unfold VM.popTop at h
  split at h
  next x heq =>
    simp only [Option.some.injEq, Prod.mk.injEq] at h
    exact ⟨h.2.symm, h.1 ▸ heq⟩
  · exact absurd h (by simp)

theorem VM.stepSet_err_pc {vm vm' : VM} {e : VMErr}
    (h : vm.stepSet = some (StepOut.err vm' e)) : vm.pc ≤ vm'.pc := by
  unfold VM.stepSet at h
  split at h
  · exact absurd h (by simp)
  next a vm1 hna1 =>
    obtain ⟨-, rfl⟩ := VM.next_argument_some hna1
    split at h
    · exact absurd h (by simp)
    next b vm2 hna2 =>
      obtain ⟨-, rfl⟩ := VM.next_argument_some hna2
      split at h
      · exact absurd h (by simp)
      next e0 hset =>
        simp only [Option.some.injEq, StepOut.err.injEq] at h
        obtain ⟨rfl, rfl⟩ := h
        show vm.pc ≤ vm.pc + 1 + 1
        omega

theorem VM.stepPush_err_pc {vm vm' : VM} {e : VMErr}
    (h : vm.stepPush = some (StepOut.err vm' e)) : vm.pc ≤ vm'.pc := by
  unfold VM.stepPush at h
  split at h
  · exact absurd h (by simp)
  next a vm1 hna1 =>
    obtain ⟨-, rfl⟩ := VM.next_argument_some hna1
    split at h
    · exact absurd h (by simp)
    next e0 hld =>
      simp only [Option.some.injEq, StepOut.err.injEq] at h
      obtain ⟨rfl, rfl⟩ := h
      show vm.pc ≤ vm.pc + 1
      omega

theorem VM.stepPop_err_pc {vm vm' : VM} {e : VMErr}
    (h : vm.stepPop = some (StepOut.err vm' e)) : vm.pc ≤ vm'.pc := by
  unfold VM.stepPop at h
  split at h
  · exact absurd h (by simp)
  next a vm1 hna1 =>
    obtain ⟨-, rfl⟩ := VM.next_argument_some hna1
    split at h
    next tos vm2 hpop =>
      obtain ⟨rfl, -⟩ := VM.popTop_some hpop
      split at h
      · exact absurd h (by simp)
      next e0 hset =>
        simp only [Option.some.injEq, StepOut.err.injEq] at h
        obtain ⟨rfl, rfl⟩ := h
        show vm.pc ≤ vm.pc + 1
        omega
    next hpop =>
      simp only [Option.some.injEq, StepOut.err.injEq] at h
      obtain ⟨rfl, rfl⟩ := h
      show vm.pc ≤ vm.pc + 1
      omega

theorem VM.stepBoolOp_err_pc {cmp : Nat → Nat → Bool} {vm vm' : VM} {e : VMErr}
    (h : VM.stepBoolOp cmp vm = some (StepOut.err vm' e)) : vm.pc ≤ vm'.pc := by
  unfold VM.stepBoolOp at h
  split at h
  · exact absurd h (by simp)
  next a vm1 hna1 =>
    obtain ⟨-, rfl⟩ := VM.next_argument_some hna1
    split at h
    · exact absurd h (by simp)
    next b vm2 hna2 =>
      obtain ⟨-, rfl⟩ := VM.next_argument_some hna2
      split at h
      · exact absurd h (by simp)
      next c vm3 hna3 =>
        obtain ⟨-, rfl⟩ := VM.next_argument_some hna3
        split at h
        next e0 hld =>
          simp only [Option.some.injEq, StepOut.err.injEq] at h
          obtain ⟨rfl, rfl⟩ := h
          show vm.pc ≤ vm.pc + 1 + 1 + 1
          omega
        next bv hld =>
          split at h
          next e0 hldc =>
            simp only [Option.some.injEq, StepOut.err.injEq] at h
            obtain ⟨rfl, rfl⟩ := h
            show vm.pc ≤ vm.pc + 1 + 1 + 1
            omega
          next cv hldc =>
            split at h
            · exact absurd h (by simp)
            next e0 hset =>
              simp only [Option.some.injEq, StepOut.err.injEq] at h
              obtain ⟨rfl, rfl⟩ := h
              show vm.pc ≤ vm.pc + 1 + 1 + 1
              omega

theorem VM.stepBinOp_err_pc {op : Nat → Nat → Option Nat} {vm vm' : VM} {e : VMErr}
    (h : VM.stepBinOp op vm = some (StepOut.err vm' e)) : vm.pc ≤ vm'.pc := by
  unfold VM.stepBinOp at h
  split at h
  · exact absurd h (by simp)
  next a vm1 hna1 =>
    obtain ⟨-, rfl⟩ := VM.next_argument_some hna1
    split at h
    · exact absurd h (by simp)
    next b vm2 hna2 =>
      obtain ⟨-, rfl⟩ := VM.next_argument_some hna2
      split at h
      · exact absurd h (by simp)
      next c vm3 hna3 =>
        obtain ⟨-, rfl⟩ := VM.next_argument_some hna3
        split at h
        next e0 hld =>
          simp only [Option.some.injEq, StepOut.err.injEq] at h
          obtain ⟨rfl, rfl⟩ := h
          show vm.pc ≤ vm.pc + 1 + 1 + 1
          omega
        next bv hld =>
          split at h
          next e0 hldc =>
            simp only [Option.some.injEq, StepOut.err.injEq] at h
            obtain ⟨rfl, rfl⟩ := h
            show vm.pc ≤ vm.pc + 1 + 1 + 1
            omega
          next cv hldc =>
            split at h
            · exact absurd h (by simp)
            next raw hraw =>
              split at h
              · exact absurd h (by simp)
              next e0 hset =>
                simp only [Option.some.injEq, StepOut.err.injEq] at h
                obtain ⟨rfl, rfl⟩ := h
                show vm.pc ≤ vm.pc + 1 + 1 + 1
                omega

theorem VM.stepJmp_err_pc {vm vm' : VM} {e : VMErr}
    (h : vm.stepJmp = some (StepOut.err vm' e)) : vm.pc ≤ vm'.pc := by
  unfold VM.stepJmp at h
  split at h
  · exact absurd h (by simp)
  next a vm1 hna1 =>
    obtain ⟨-, rfl⟩ := VM.next_argument_some hna1
    split at h
    · exact absurd h (by simp)
    next e0 hjmp =>
      simp only [Option.some.injEq, StepOut.err.injEq] at h
      obtain ⟨rfl, rfl⟩ := h
      show vm.pc ≤ vm.pc + 1
      omega

theorem VM.stepJt_err_pc {vm vm' : VM} {e : VMErr}
    (h : vm.stepJt = some (StepOut.err vm' e)) : vm.pc ≤ vm'.pc := by
  unfold VM.stepJt at h
  split at h
  · exact absurd h (by simp)
  next a vm1 hna1 =>
    obtain ⟨-, rfl⟩ := VM.next_argument_some hna1
    split at h
    · exact absurd h (by simp)
    next b vm2 hna2 =>
      obtain ⟨-, rfl⟩ := VM.next_argument_some hna2
      split at h
      next e0 hld =>
        simp only [Option.some.injEq, StepOut.err.injEq] at h
        obtain ⟨rfl, rfl⟩ := h
        show vm.pc ≤ vm.pc + 1 + 1
        omega
      next av hld =>
        split at h
        · split at h
          · exact absurd h (by simp)
          next e0 hjmp =>
            simp only [Option.some.injEq, StepOut.err.injEq] at h
            obtain ⟨rfl, rfl⟩ := h
            show vm.pc ≤ vm.pc + 1 + 1
            omega
        · exact absurd h (by simp)

theorem VM.stepJf_err_pc {vm vm' : VM} {e : VMErr}
    (h : vm.stepJf = some (StepOut.err vm' e)) : vm.pc ≤ vm'.pc := by
  unfold VM.stepJf at h
  split at h
  · exact absurd h (by simp)
  next a vm1 hna1 =>
    obtain ⟨-, rfl⟩ := VM.next_argument_some hna1
    split at h
    · exact absurd h (by simp)
    next b vm2 hna2 =>
      obtain ⟨-, rfl⟩ := VM.next_argument_some hna2
      split at h
      next e0 hld =>
        simp only [Option.some.injEq, StepOut.err.injEq] at h
        obtain ⟨rfl, rfl⟩ := h
        show vm.pc ≤ vm.pc + 1 + 1
        omega
      next av hld =>
        split at h
        · split at h
          · exact absurd h (by simp)
          next e0 hjmp =>
            simp only [Option.some.injEq, StepOut.err.injEq] at h
            obtain ⟨rfl, rfl⟩ := h
            show vm.pc ≤ vm.pc + 1 + 1
            omega
        · exact absurd h (by simp)

theorem VM.stepNot_err_pc {vm vm' : VM} {e : VMErr}
    (h : vm.stepNot = some (StepOut.err vm' e)) : vm.pc ≤ vm'.pc := by
  unfold VM.stepNot at h
  split at h
  · exact absurd h (by simp)
  next a vm1 hna1 =>
    obtain ⟨-, rfl⟩ := VM.next_argument_some hna1
    split at h
    · exact absurd h (by simp)
    next b vm2 hna2 =>
      obtain ⟨-, rfl⟩ := VM.next_argument_some hna2
      split at h
      next e0 hld =>
        simp only [Option.some.injEq, StepOut.err.injEq] at h
        obtain ⟨rfl, rfl⟩ := h
        show vm.pc ≤ vm.pc + 1 + 1
        omega
      next bv hld =>
        split at h
        · exact absurd h (by simp)
        next e0 hset =>
          simp only [Option.some.injEq, StepOut.err.injEq] at h
          obtain ⟨rfl, rfl⟩ := h
          show vm.pc ≤ vm.pc + 1 + 1
          omega

theorem VM.stepRmem_err_pc {vm vm' : VM} {e : VMErr}
    (h : vm.stepRmem = some (StepOut.err vm' e)) : vm.pc ≤ vm'.pc := by
  unfold VM.stepRmem at h
  split at h
  · exact absurd h (by simp)
  next a vm1 hna1 =>
    obtain ⟨-, rfl⟩ := VM.next_argument_some hna1
    split at h
    · exact absurd h (by simp)
    next b vm2 hna2 =>
      obtain ⟨-, rfl⟩ := VM.next_argument_some hna2
      split at h
      next e0 hld =>
        simp only [Option.some.injEq, StepOut.err.injEq] at h
        obtain ⟨rfl, rfl⟩ := h
        show vm.pc ≤ vm.pc + 1 + 1
        omega
      next bv hld =>
        split at h
        · exact absurd h (by simp)
        next mv hmem =>
          split at h
          · exact absurd h (by simp)
          next e0 hset =>
            simp only [Option.some.injEq, StepOut.err.injEq] at h
            obtain ⟨rfl, rfl⟩ := h
            show vm.pc ≤ vm.pc + 1 + 1
            omega

theorem VM.stepWmem_err_pc {vm vm' : VM} {e : VMErr}
    (h : vm.stepWmem = some (StepOut.err vm' e)) : vm.pc ≤ vm'.pc := by
  unfold VM.stepWmem at h
  split at h
  · exact absurd h (by simp)
  next a vm1 hna1 =>
    obtain ⟨-, rfl⟩ := VM.next_argument_some hna1
    split at h
    · exact absurd h (by simp)
    next b vm2 hna2 =>
      obtain ⟨-, rfl⟩ := VM.next_argument_some hna2
      split at h
      next e0 hld =>
        simp only [Option.some.injEq, StepOut.err.injEq] at h
        obtain ⟨rfl, rfl⟩ := h
        show vm.pc ≤ vm.pc + 1 + 1
        omega
      next loc hld =>
        split at h
        next e0 hldb =>
          simp only [Option.some.injEq, StepOut.err.injEq] at h
          obtain ⟨rfl, rfl⟩ := h
          show vm.pc ≤ vm.pc + 1 + 1
          omega
        next bv hldb =>
          split at h
          · exact absurd h (by simp)
          · exact absurd h (by simp)

theorem VM.stepCall_err_pc {vm vm' : VM} {e : VMErr}
    (h : vm.stepCall = some (StepOut.err vm' e)) : vm.pc ≤ vm'.pc := by
  unfold VM.stepCall at h
  split at h
  · exact absurd h (by simp)
  next a vm1 hna1 =>
    obtain ⟨-, rfl⟩ := VM.next_argument_some hna1
    split at h
    · exact absurd h (by simp)
    next e0 hjmp =>
      simp only [Option.some.injEq, StepOut.err.injEq] at h
      obtain ⟨rfl, rfl⟩ := h
      show vm.pc ≤ vm.pc + 1
      omega

theorem VM.stepRet_err_pc {vm vm' : VM} {e : VMErr}
    (h : vm.stepRet = some (StepOut.err vm' e)) : vm.pc ≤ vm'.pc := by
  unfold VM.stepRet at h
  split at h
  next tos vm1 hpop =>
    obtain ⟨rfl, -⟩ := VM.popTop_some hpop
    split at h
    · exact absurd h (by simp)
    next e0 hjmp =>
      simp only [Option.some.injEq, StepOut.err.injEq] at h
      obtain ⟨rfl, rfl⟩ := h
      show vm.pc ≤ vm.pc
      omega
  next hpop => exact absurd h (by simp)

theorem VM.stepOut_err_pc {vm vm' : VM} {e : VMErr}
    (h : vm.stepOut = some (StepOut.err vm' e)) : vm.pc ≤ vm'.pc := by
  unfold VM.stepOut at h
  split at h
  · exact absurd h (by simp)
  next a vm1 hna1 =>
    obtain ⟨-, rfl⟩ := VM.next_argument_some hna1
    split at h
    next e0 hld =>
      simp only [Option.some.injEq, StepOut.err.injEq] at h
      obtain ⟨rfl, rfl⟩ := h
      show vm.pc ≤ vm.pc + 1
      omega
    next av hld => exact absurd h (by simp)

theorem VM.stepIn_err_pc {vm vm' : VM} {e : VMErr}
    (h : vm.stepIn = some (StepOut.err vm' e)) : vm.pc ≤ vm'.pc := by
  unfold VM.stepIn at h
  split at h
  · exact absurd h (by simp)
  next a vm1 hna1 =>
    obtain ⟨-, rfl⟩ := VM.next_argument_some hna1
    split at h
    · exact absurd h (by simp)
    next byte rest hin =>
      split at h
      · exact absurd h (by simp)
      next e0 hset =>
        simp only [Option.some.injEq, StepOut.err.injEq] at h
        obtain ⟨rfl, rfl⟩ := h
        show vm.pc ≤ vm.pc + 1
        omega

/-- C1 amended: when a cycle returns any error (Halt is not an error in
this embedding; `Ok(false)` is the halt signal), the pc after the failed
step is strictly greater than the pc at the start of the step — the
opcode word and every operand fetched before the failure remain
consumed; pc is not rolled back to its pre-step value. -/
theorem c1_amended_no_rollback {vm vm' : VM} {e : VMErr}
    (h : vm.cycle = some (StepOut.err vm' e)) : vm.pc < vm'.pc := by
  unfold VM.cycle at h
  split at h
  · exact absurd h (by simp)
  next opcode vm1 hna =>
    obtain ⟨-, rfl⟩ := VM.next_argument_some hna
    split at h
    · exact absurd h (by simp)
    · have h2 : vm.pc + 1 ≤ vm'.pc := VM.stepSet_err_pc h
      omega
    · have h2 : vm.pc + 1 ≤ vm'.pc := VM.stepPush_err_pc h
      omega
    · have h2 : vm.pc + 1 ≤ vm'.pc := VM.stepPop_err_pc h
      omega
    · have h2 : vm.pc + 1 ≤ vm'.pc := VM.stepBoolOp_err_pc h
      omega
    · have h2 : vm.pc + 1 ≤ vm'.pc := VM.stepBoolOp_err_pc h
      omega
    · have h2 : vm.pc + 1 ≤ vm'.pc := VM.stepJmp_err_pc h
      omega
    · have h2 : vm.pc + 1 ≤ vm'.pc := VM.stepJt_err_pc h
      omega
    · have h2 : vm.pc + 1 ≤ vm'.pc := VM.stepJf_err_pc h
      omega
    · have h2 : vm.pc + 1 ≤ vm'.pc := VM.stepBinOp_err_pc h
      omega
    · have h2 : vm.pc + 1 ≤ vm'.pc := VM.stepBinOp_err_pc h
      omega
    · have h2 : vm.pc + 1 ≤ vm'.pc := VM.stepBinOp_err_pc h
      omega
    · have h2 : vm.pc + 1 ≤ vm'.pc := VM.stepBinOp_err_pc h
      omega
    · have h2 : vm.pc + 1 ≤ vm'.pc := VM.stepBinOp_err_pc h
      omega
    · have h2 : vm.pc + 1 ≤ vm'.pc := VM.stepNot_err_pc h
      omega
    · have h2 : vm.pc + 1 ≤ vm'.pc := VM.stepRmem_err_pc h
      omega
    · have h2 : vm.pc + 1 ≤ vm'.pc := VM.stepWmem_err_pc h
      omega
    · have h2 : vm.pc + 1 ≤ vm'.pc := VM.stepCall_err_pc h
      omega
    · have h2 : vm.pc + 1 ≤ vm'.pc := VM.stepRet_err_pc h
      omega
    · have h2 : vm.pc + 1 ≤ vm'.pc := VM.stepOut_err_pc h
      omega
    · have h2 : vm.pc + 1 ≤ vm'.pc := VM.stepIn_err_pc h
      omega
    · exact absurd h (by simp)
    · simp only [Option.some.injEq, StepOut.err.injEq] at h
      obtain ⟨rfl, rfl⟩ := h
      show vm.pc < vm.pc + 1
      omega


/-- Dispatch of one cycle at the unknown opcode 99. -/
theorem VM.cycle_op99 {vm : VM} (hop : vm.memory[vm.pc]? = some 99) :
    vm.cycle = some (StepOut.err { vm with pc := vm.pc + 1 }
      (VMErr.unknownOpcode 99 (vm.pc + 1 - 1))) := by
  unfold VM.cycle
  rw [VM.next_argument_eq_some hop]

/-- Witness for the amended C1: an unknown-opcode failure leaves pc one
past the start of the step, which is strictly greater than the start. -/
theorem c1_amended_no_rollback_witness :
    (progVM [99] []).cycle
      = some (StepOut.err { progVM [99] [] with pc := (progVM [99] []).pc + 1 }
          (VMErr.unknownOpcode 99 ((progVM [99] []).pc + 1 - 1)))
    ∧ (progVM [99] []).pc
        < ({ progVM [99] [] with pc := (progVM [99] []).pc + 1 } : VM).pc := by
  have hcy := VM.cycle_op99 (@progVM_fetch [99] [] (progVM [99] []).pc 99 rfl)
  exact ⟨hcy, c1_amended_no_rollback hcy⟩

theorem mem_of_mem_dropLast {l : List Nat} {x : Nat} (h : x ∈ l.dropLast) : x ∈ l := by
  rw [List.dropLast_eq_take] at h
  exact List.take_subset _ _ h

/-- A resolved operand value is always a stored word: either the literal
operand itself (at most 32767) or a register value. -/
theorem VM.load_lt {vm : VM} {a v : Nat} (h : vm.load a = Except.ok v)
    (hreg : ∀ x ∈ vm.registers, x < 65536) : v < 65536 := by
  unfold VM.load at h
  split_ifs at h with h1 h2
  · simp only [Except.ok.injEq] at h
    omega
  · simp only [Except.ok.injEq] at h
    subst h
    by_cases hi : a - 32768 < vm.registers.length
    · rw [List.getD_eq_getElem?_getD, List.getElem?_eq_getElem hi]
      exact hreg _ (List.getElem_mem hi)
    · rw [List.getD_eq_default _ _ (by omega)]
      omega

theorem VM.wf_with_pc {vm : VM} (hwf : vm.WfState) (n : Nat) :
    ({ vm with pc := n } : VM).WfState := hwf

theorem VM.wf_registers_set {vm : VM} (hwf : vm.WfState) {v : Nat} (hv : v < 65536) (i : Nat) :
    ({ vm with registers := vm.registers.set i v } : VM).WfState := by
  obtain ⟨hm, hr, hs, hi⟩ := hwf
  refine ⟨hm, fun x hx => ?_, hs, hi⟩
  rcases List.mem_or_eq_of_mem_set hx with hx' | rfl
  · exact hr x hx'
  · exact hv

theorem VM.wf_memory_set {vm : VM} (hwf : vm.WfState) {v : Nat} (hv : v < 65536) (i : Nat) :
    ({ vm with memory := vm.memory.set i v } : VM).WfState := by
  obtain ⟨hm, hr, hs, hi⟩ := hwf
  refine ⟨fun x hx => ?_, hr, hs, hi⟩
  rcases List.mem_or_eq_of_mem_set hx with hx' | rfl
  · exact hm x hx'
  · exact hv

theorem VM.wf_stack_append {vm : VM} (hwf : vm.WfState) {v : Nat} (hv : v < 65536) :
    ({ vm with stack := vm.stack ++ [v] } : VM).WfState := by
  obtain ⟨hm, hr, hs, hi⟩ := hwf
  refine ⟨hm, hr, fun x hx => ?_, hi⟩
  rcases List.mem_append.mp hx with hx' | hx'
  · exact hs x hx'
  · rw [List.mem_singleton] at hx'
    omega

theorem VM.wf_stack_dropLast {vm : VM} (hwf : vm.WfState) :
    ({ vm with stack := vm.stack.dropLast } : VM).WfState := by
  obtain ⟨hm, hr, hs, hi⟩ := hwf
  exact ⟨hm, hr, fun x hx => hs x (mem_of_mem_dropLast hx), hi⟩

/-- A successful `set` preserves well-formedness: the written value is a
resolved operand, hence a 16-bit word. -/
theorem VM.set_ok_wf {vm vm' : VM} {d s : Nat} (h : vm.set d s = Except.ok vm')
    (hwf : vm.WfState) : vm'.WfState := by
  unfold VM.set at h
  split at h
  · exact absurd h (by simp)
  next sv hld =>
    split at h
    · simp only [Except.ok.injEq] at h
      subst h
      exact vm.wf_registers_set hwf (VM.load_lt hld hwf.2.1) _
    · exact absurd h (by simp)

/-- A successful `jmp!` only changes `pc`. -/
theorem VM.jmp_ok {vm vm' : VM} {loc : Nat} (h : vm.jmp loc = Except.ok vm') :
    ∃ t, vm' = { vm with pc := t } := by
  unfold VM.jmp at h
  split at h
  next t hld =>
    simp only [Except.ok.injEq] at h
    exact ⟨t, h.symm⟩
  · exact absurd h (by simp)

theorem VM.stepSet_wf {vm : VM} {o : StepOut} (h : vm.stepSet = some o)
    (hwf : vm.WfState) : o.state.WfState := by
  unfold VM.stepSet at h
  split at h
  · exact absurd h (by simp)
  next a vm1 hna1 =>
    obtain ⟨-, rfl⟩ := VM.next_argument_some hna1
    split at h
    · exact absurd h (by simp)
    next b vm2 hna2 =>
      obtain ⟨-, rfl⟩ := VM.next_argument_some hna2
      split at h
      next vm3 hset =>
        simp only [Option.some.injEq] at h
        obtain rfl := h
        exact VM.set_ok_wf hset hwf
      next e0 hset =>
        simp only [Option.some.injEq] at h
        obtain rfl := h
        exact hwf

theorem VM.stepPush_wf {vm : VM} {o : StepOut} (h : vm.stepPush = some o)
    (hwf : vm.WfState) : o.state.WfState := by
  unfold VM.stepPush at h
  split at h
  · exact absurd h (by simp)
  next a vm1 hna1 =>
    obtain ⟨-, rfl⟩ := VM.next_argument_some hna1
    split at h
    next av hld =>
      simp only [Option.some.injEq] at h
      obtain rfl := h
      exact @VM.wf_stack_append { vm with pc := vm.pc + 1 } hwf av
        (VM.load_lt hld hwf.2.1)
    next e0 hld =>
      simp only [Option.some.injEq] at h
      obtain rfl := h
      exact hwf

theorem VM.stepPop_wf {vm : VM} {o : StepOut} (h : vm.stepPop = some o)
    (hwf : vm.WfState) : o.state.WfState := by
  unfold VM.stepPop at h
  split at h
  · exact absurd h (by simp)
  next a vm1 hna1 =>
    obtain ⟨-, rfl⟩ := VM.next_argument_some hna1
    split at h
    next tos vm2 hpop =>
      obtain ⟨rfl, -⟩ := VM.popTop_some hpop
      split at h
      next vm3 hset =>
        simp only [Option.some.injEq] at h
        obtain rfl := h
        exact VM.set_ok_wf hset (@VM.wf_stack_dropLast { vm with pc := vm.pc + 1 } hwf)
      next e0 hset =>
        simp only [Option.some.injEq] at h
        obtain rfl := h
        exact @VM.wf_stack_dropLast { vm with pc := vm.pc + 1 } hwf
    next hpop =>
      simp only [Option.some.injEq] at h
      obtain rfl := h
      exact hwf

theorem VM.stepBoolOp_wf {cmp : Nat → Nat → Bool} {vm : VM} {o : StepOut}
    (h : VM.stepBoolOp cmp vm = some o) (hwf : vm.WfState) : o.state.WfState := by
  unfold VM.stepBoolOp at h
  split at h
  · exact absurd h (by simp)
  next a vm1 hna1 =>
    obtain ⟨-, rfl⟩ := VM.next_argument_some hna1
    split at h
    · exact absurd h (by simp)
    next b vm2 hna2 =>
      obtain ⟨-, rfl⟩ := VM.next_argument_some hna2
      split at h
      · exact absurd h (by simp)
      next c vm3 hna3 =>
        obtain ⟨-, rfl⟩ := VM.next_argument_some hna3
        split at h
        next e0 hld =>
          simp only [Option.some.injEq] at h
          obtain rfl := h
          exact hwf
        next bv hld =>
          split at h
          next e0 hldc =>
            simp only [Option.some.injEq] at h
            obtain rfl := h
            exact hwf
          next cv hldc =>
            split at h
            next vm4 hset =>
              simp only [Option.some.injEq] at h
              obtain rfl := h
              exact VM.set_ok_wf hset hwf
            next e0 hset =>
              simp only [Option.some.injEq] at h
              obtain rfl := h
              exact hwf

theorem VM.stepBinOp_wf {op : Nat → Nat → Option Nat} {vm : VM} {o : StepOut}
    (h : VM.stepBinOp op vm = some o) (hwf : vm.WfState) : o.state.WfState := by
  unfold VM.stepBinOp at h
  split at h
  · exact absurd h (by simp)
  next a vm1 hna1 =>
    obtain ⟨-, rfl⟩ := VM.next_argument_some hna1
    split at h
    · exact absurd h (by simp)
    next b vm2 hna2 =>
      obtain ⟨-, rfl⟩ := VM.next_argument_some hna2
      split at h
      · exact absurd h (by simp)
      next c vm3 hna3 =>
        obtain ⟨-, rfl⟩ := VM.next_argument_some hna3
        split at h
        next e0 hld =>
          simp only [Option.some.injEq] at h
          obtain rfl := h
          exact hwf
        next bv hld =>
          split at h
          next e0 hldc =>
            simp only [Option.some.injEq] at h
            obtain rfl := h
            exact hwf
          next cv hldc =>
            split at h
            · exact absurd h (by simp)
            next raw hraw =>
              split at h
              next vm4 hset =>
                simp only [Option.some.injEq] at h
                obtain rfl := h
                exact VM.set_ok_wf hset hwf
              next e0 hset =>
                simp only [Option.some.injEq] at h
                obtain rfl := h
                exact hwf

theorem VM.stepJmp_wf {vm : VM} {o : StepOut} (h : vm.stepJmp = some o)
    (hwf : vm.WfState) : o.state.WfState := by
  unfold VM.stepJmp at h
  split at h
  · exact absurd h (by simp)
  next a vm1 hna1 =>
    obtain ⟨-, rfl⟩ := VM.next_argument_some hna1
    split at h
    next vm2 hjmp =>
      simp only [Option.some.injEq] at h
      obtain rfl := h
      obtain ⟨t, rfl⟩ := VM.jmp_ok hjmp
      exact hwf
    next e0 hjmp =>
      simp only [Option.some.injEq] at h
      obtain rfl := h
      exact hwf

theorem VM.stepJt_wf {vm : VM} {o : StepOut} (h : vm.stepJt = some o)
    (hwf : vm.WfState) : o.state.WfState := by
  unfold VM.stepJt at h
  split at h
  · exact absurd h (by simp)
  next a vm1 hna1 =>
    obtain ⟨-, rfl⟩ := VM.next_argument_some hna1
    split at h
    · exact absurd h (by simp)
    next b vm2 hna2 =>
      obtain ⟨-, rfl⟩ := VM.next_argument_some hna2
      split at h
      next e0 hld =>
        simp only [Option.some.injEq] at h
        obtain rfl := h
        exact hwf
      next av hld =>
        split at h
        · split at h
          next vm3 hjmp =>
            simp only [Option.some.injEq] at h
            obtain rfl := h
            obtain ⟨t, rfl⟩ := VM.jmp_ok hjmp
            exact hwf
          next e0 hjmp =>
            simp only [Option.some.injEq] at h
            obtain rfl := h
            exact hwf
        · simp only [Option.some.injEq] at h
          obtain rfl := h
          exact hwf

theorem VM.stepJf_wf {vm : VM} {o : StepOut} (h : vm.stepJf = some o)
    (hwf : vm.WfState) : o.state.WfState := by
  unfold VM.stepJf at h
  split at h
  · exact absurd h (by simp)
  next a vm1 hna1 =>
    obtain ⟨-, rfl⟩ := VM.next_argument_some hna1
    split at h
    · exact absurd h (by simp)
    next b vm2 hna2 =>
      obtain ⟨-, rfl⟩ := VM.next_argument_some hna2
      split at h
      next e0 hld =>
        simp only [Option.some.injEq] at h
        obtain rfl := h
        exact hwf
      next av hld =>
        split at h
        · split at h
          next vm3 hjmp =>
            simp only [Option.some.injEq] at h
            obtain rfl := h
            obtain ⟨t, rfl⟩ := VM.jmp_ok hjmp
            exact hwf
          next e0 hjmp =>
            simp only [Option.some.injEq] at h
            obtain rfl := h
            exact hwf
        · simp only [Option.some.injEq] at h
          obtain rfl := h
          exact hwf

theorem VM.stepNot_wf {vm : VM} {o : StepOut} (h : vm.stepNot = some o)
    (hwf : vm.WfState) : o.state.WfState := by
  unfold VM.stepNot at h
  split at h
  · exact absurd h (by simp)
  next a vm1 hna1 =>
    obtain ⟨-, rfl⟩ := VM.next_argument_some hna1
    split at h
    · exact absurd h (by simp)
    next b vm2 hna2 =>
      obtain ⟨-, rfl⟩ := VM.next_argument_some hna2
      split at h
      next e0 hld =>
        simp only [Option.some.injEq] at h
        obtain rfl := h
        exact hwf
      next bv hld =>
        split at h
        next vm3 hset =>
          simp only [Option.some.injEq] at h
          obtain rfl := h
          exact VM.set_ok_wf hset hwf
        next e0 hset =>
          simp only [Option.some.injEq] at h
          obtain rfl := h
          exact hwf

theorem VM.stepRmem_wf {vm : VM} {o : StepOut} (h : vm.stepRmem = some o)
    (hwf : vm.WfState) : o.state.WfState := by
  unfold VM.stepRmem at h
  split at h
  · exact absurd h (by simp)
  next a vm1 hna1 =>
    obtain ⟨-, rfl⟩ := VM.next_argument_some hna1
    split at h
    · exact absurd h (by simp)
    next b vm2 hna2 =>
      obtain ⟨-, rfl⟩ := VM.next_argument_some hna2
      split at h
      next e0 hld =>
        simp only [Option.some.injEq] at h
        obtain rfl := h
        exact hwf
      next bv hld =>
        split at h
        · exact absurd h (by simp)
        next mv hmem =>
          split at h
          next vm3 hset =>
            simp only [Option.some.injEq] at h
            obtain rfl := h
            exact VM.set_ok_wf hset hwf
          next e0 hset =>
            simp only [Option.some.injEq] at h
            obtain rfl := h
            exact hwf

theorem VM.stepWmem_wf {vm : VM} {o : StepOut} (h : vm.stepWmem = some o)
    (hwf : vm.WfState) : o.state.WfState := by
  unfold VM.stepWmem at h
  split at h
  · exact absurd h (by simp)
  next a vm1 hna1 =>
    obtain ⟨-, rfl⟩ := VM.next_argument_some hna1
    split at h
    · exact absurd h (by simp)
    next b vm2 hna2 =>
      obtain ⟨-, rfl⟩ := VM.next_argument_some hna2
      split at h
      next e0 hld =>
        simp only [Option.some.injEq] at h
        obtain rfl := h
        exact hwf
      next loc hld =>
        split at h
        next e0 hldb =>
          simp only [Option.some.injEq] at h
          obtain rfl := h
          exact hwf
        next bv hldb =>
          split at h
          · simp only [Option.some.injEq] at h
            obtain rfl := h
            exact @VM.wf_memory_set { vm with pc := vm.pc + 1 + 1 } hwf bv
              (VM.load_lt hldb hwf.2.1) loc
          · exact absurd h (by simp)

theorem VM.stepCall_wf {vm : VM} {o : StepOut} (h : vm.stepCall = some o)
    (hwf : vm.WfState) : o.state.WfState := by
  unfold VM.stepCall at h
  split at h
  · exact absurd h (by simp)
  next a vm1 hna1 =>
    obtain ⟨-, rfl⟩ := VM.next_argument_some hna1
    have hwfp : ({ { vm with pc := vm.pc + 1 } with
        stack := ({ vm with pc := vm.pc + 1 } : VM).stack
          ++ [({ vm with pc := vm.pc + 1 } : VM).pc % 65536] } : VM).WfState :=
      @VM.wf_stack_append { vm with pc := vm.pc + 1 } hwf _
        (Nat.mod_lt _ (by omega))
    split at h
    next vm2 hjmp =>
      simp only [Option.some.injEq] at h
      obtain rfl := h
      obtain ⟨t, rfl⟩ := VM.jmp_ok hjmp
      exact hwfp
    next e0 hjmp =>
      simp only [Option.some.injEq] at h
      obtain rfl := h
      exact hwfp

theorem VM.stepRet_wf {vm : VM} {o : StepOut} (h : vm.stepRet = some o)
    (hwf : vm.WfState) : o.state.WfState := by
  unfold VM.stepRet at h
  split at h
  next tos vm1 hpop =>
    obtain ⟨rfl, -⟩ := VM.popTop_some hpop
    split at h
    next vm2 hjmp =>
      simp only [Option.some.injEq] at h
      obtain rfl := h
      obtain ⟨t, rfl⟩ := VM.jmp_ok hjmp
      exact VM.wf_stack_dropLast hwf
    next e0 hjmp =>
      simp only [Option.some.injEq] at h
      obtain rfl := h
      exact VM.wf_stack_dropLast hwf
  next hpop =>
    simp only [Option.some.injEq] at h
    obtain rfl := h
    exact hwf

theorem VM.stepOut_wf {vm : VM} {o : StepOut} (h : vm.stepOut = some o)
    (hwf : vm.WfState) : o.state.WfState := by
  unfold VM.stepOut at h
  split at h
  · exact absurd h (by simp)
  next a vm1 hna1 =>
    obtain ⟨-, rfl⟩ := VM.next_argument_some hna1
    split at h
    next e0 hld =>
      simp only [Option.some.injEq] at h
      obtain rfl := h
      exact hwf
    next av hld =>
      simp only [Option.some.injEq] at h
      obtain rfl := h
      exact hwf

theorem VM.stepIn_wf {vm : VM} {o : StepOut} (h : vm.stepIn = some o)
    (hwf : vm.WfState) : o.state.WfState := by
  unfold VM.stepIn at h
  split at h
  · exact absurd h (by simp)
  next a vm1 hna1 =>
    obtain ⟨-, rfl⟩ := VM.next_argument_some hna1
    split at h
    next hin =>
      simp only [Option.some.injEq] at h
      obtain rfl := h
      exact hwf
    next byte rest hin =>
      have hwfi : ({ { vm with pc := vm.pc + 1 } with input := rest } : VM).WfState := by
        obtain ⟨hm, hr, hs, hi⟩ := hwf
        refine ⟨hm, hr, hs, fun x hx => hi x ?_⟩
        have hin' : vm.input = byte :: rest := hin
        rw [hin']
        exact List.mem_cons_of_mem _ hx
      split at h
      next vm2 hset =>
        simp only [Option.some.injEq] at h
        obtain rfl := h
        exact VM.set_ok_wf hset hwfi
      next e0 hset =>
        simp only [Option.some.injEq] at h
        obtain rfl := h
        exact hwfi

theorem VM.cycle_wf {vm : VM} {o : StepOut} (h : vm.cycle = some o)
    (hwf : vm.WfState) : o.state.WfState := by
  unfold VM.cycle at h
  split at h
  · exact absurd h (by simp)
  next opcode vm1 hna =>
    obtain ⟨-, rfl⟩ := VM.next_argument_some hna
    split at h
    · simp only [Option.some.injEq] at h
      obtain rfl := h
      exact hwf
    · exact VM.stepSet_wf h hwf
    · exact VM.stepPush_wf h hwf
    · exact VM.stepPop_wf h hwf
    · exact VM.stepBoolOp_wf h hwf
    · exact VM.stepBoolOp_wf h hwf
    · exact VM.stepJmp_wf h hwf
    · exact VM.stepJt_wf h hwf
    · exact VM.stepJf_wf h hwf
    · exact VM.stepBinOp_wf h hwf
    · exact VM.stepBinOp_wf h hwf
    · exact VM.stepBinOp_wf h hwf
    · exact VM.stepBinOp_wf h hwf
    · exact VM.stepBinOp_wf h hwf
    · exact VM.stepNot_wf h hwf
    · exact VM.stepRmem_wf h hwf
    · exact VM.stepWmem_wf h hwf
    · exact VM.stepCall_wf h hwf
    · exact VM.stepRet_wf h hwf
    · exact VM.stepOut_wf h hwf
    · exact VM.stepIn_wf h hwf
    · simp only [Option.some.injEq] at h
      obtain rfl := h
      exact hwf
    · simp only [Option.some.injEq] at h
      obtain rfl := h
      exact hwf

/-- The words assembled from a byte stream fit in 16 bits. -/
theorem chunkWords_lt : ∀ (bytes : List Nat), (∀ b ∈ bytes, b < 256) →
    ∀ w ∈ chunkWords bytes, w < 65536
  | [], _ => by simp [chunkWords]
  | [b], _ => by simp [chunkWords]
  | low :: high :: rest, hb => by
    intro w hw
    unfold chunkWords at hw
    rcases List.mem_cons.mp hw with rfl | hw'
    · have hlow : low < 256 := hb _ (List.mem_cons_self _ _)
      have hhigh : high < 256 := hb _ (List.mem_cons_of_mem _ (List.mem_cons_self _ _))
      have h1 : high <<< 8 < 2 ^ 16 := by
        rw [Nat.shiftLeft_eq]
        have : (2 : Nat) ^ 8 = 256 := by norm_num
        have : (2 : Nat) ^ 16 = 65536 := by norm_num
        omega
      have h2 : low < 2 ^ 16 := by
        have : (2 : Nat) ^ 16 = 65536 := by norm_num
        omega
      have := Nat.or_lt_two_pow h1 h2
      have h16 : (2 : Nat) ^ 16 = 65536 := by norm_num
      omega
    · exact chunkWords_lt rest (fun b hbm => hb _ (List.mem_cons_of_mem _ (List.mem_cons_of_mem _ hbm))) w hw'

/-- Writing 16-bit words into 16-bit memory keeps all cells 16-bit. -/
theorem writeWords_wf : ∀ (words : List Nat) (i : Nat) (mem mem' : List Nat),
    (∀ x ∈ words, x < 65536) → (∀ x ∈ mem, x < 65536) →
    writeWords words i mem = some mem' → ∀ x ∈ mem', x < 65536
  | [], i, mem, mem', _, hm, h => by
    unfold writeWords at h
    simp only [Option.some.injEq] at h
    subst h
    exact hm
  | w :: rest, i, mem, mem', hw, hm, h => by
    unfold writeWords at h
    split at h
    · refine writeWords_wf rest (i + 1) (mem.set i w) mem'
        (fun x hx => hw x (List.mem_cons_of_mem _ hx)) (fun x hx => ?_) h
      rcases List.mem_or_eq_of_mem_set hx with hx' | rfl
      · exact hm x hx'
      · exact hw _ (List.mem_cons_self _ _)
    · exact absurd h (by simp)

/-- Loading a program image made of bytes preserves the 16-bit bound on
every memory cell (and touches nothing else). -/
theorem VM.load_program_wf {vm vm' : VM} {bytes : List Nat}
    (h : vm.load_program_from_file bytes = some vm')
    (hb : ∀ b ∈ bytes, b < 256) (hwf : vm.WfState) : vm'.WfState := by
  unfold VM.load_program_from_file at h
  split at h
  next mem hw =>
    simp only [Option.some.injEq] at h
    subst h
    obtain ⟨hm, hr, hs, hi⟩ := hwf
    exact ⟨writeWords_wf (chunkWords bytes) 0 vm.memory mem
      (chunkWords_lt bytes hb) hm hw, hr, hs, hi⟩
  · exact absurd h (by simp)

/-- The fresh VM is well formed. -/
theorem VM.new_wf : VM.new.WfState :=
  ⟨fun x hx => by rw [List.eq_of_mem_replicate hx]; omega,
   fun x hx => by rw [List.eq_of_mem_replicate hx]; omega,
   fun x hx => by simp [VM.new] at hx,
   fun x hx => by simp [VM.new] at hx⟩

/-- The nil equation of `writeWords`. -/
theorem writeWords_nil (i : Nat) (mem : List Nat) : writeWords [] i mem = some mem := rfl

/-- The cons equation of `writeWords`. -/
theorem writeWords_cons (w : Nat) (rest : List Nat) (i : Nat) (mem : List Nat) :
    writeWords (w :: rest) i mem
      = if i < mem.length then writeWords rest (i + 1) (mem.set i w) else none := rfl

/-- The unfolding equation of `load_program_from_file`, usable by pure
rewriting. -/
theorem VM.load_program_eq (vm : VM) (bytes : List Nat) :
    vm.load_program_from_file bytes
      = match writeWords (chunkWords bytes) 0 vm.memory with
        | some memory => some { vm with memory := memory }
        | none => none := rfl

/-- Loading the two-byte image `FF FF` stores the full 16-bit word 65535
at address 0 — no masking to 15 bits happens. -/
theorem VM.load_program_255 :
    VM.new.load_program_from_file [255, 255]
      = some { VM.new with memory := (List.replicate ADDRESS_SPACE 0).set 0 65535 } := by
  have hchunk : chunkWords [255, 255] = [65535] := rfl
  rw [VM.load_program_eq]
  rw [hchunk, writeWords_cons]
  rw [if_pos (show 0 < VM.new.memory.length by
    show 0 < (List.replicate ADDRESS_SPACE 0).length
    rw [List.length_replicate]
    decide)]
  rw [writeWords_nil]
  rfl

/-- Fetching at the fresh VM reads the zero (halt) opcode. -/
theorem VM.new_fetch0 : VM.new.memory[VM.new.pc]? = some 0 := by
  show (List.replicate ADDRESS_SPACE 0)[0]? = some 0
  rw [List.getElem?_eq_getElem (by rw [List.length_replicate]; decide)]
  rw [List.getElem_replicate]

/-- Dispatch of one cycle at an opcode-0 (`halt`) word. -/
theorem VM.cycle_op_halt {vm : VM} (hop : vm.memory[vm.pc]? = some 0) :
    vm.cycle = some (StepOut.ok { vm with pc := vm.pc + 1 } false) := by
  unfold VM.cycle
  rw [VM.next_argument_eq_some hop]

/-- C9 counterexample: loading the byte image `FF FF` puts 65535 — a
16-bit value far above the 15-bit bound 32767 — into memory cell 0, so
program-image loading does not preserve the claimed 15-bit invariant. -/
theorem c9_counterexample :
    VM.new.load_program_from_file [255, 255]
      = some { VM.new with memory := (List.replicate ADDRESS_SPACE 0).set 0 65535 }
    ∧ ((List.replicate ADDRESS_SPACE 0).set 0 65535)[0]? = some 65535
    ∧ ¬ (65535 : Nat) ≤ 32767
    ∧ (255 : Nat) < 256 :=
  ⟨VM.load_program_255,
   by rw [List.getElem?_set_eq_of_lt 65535 (by rw [List.length_replicate]; decide)],
   by decide, by decide⟩

/-- C9 amended: the invariant that actually holds is 16-bit wide, not
15-bit: in a well-formed state every stored value (memory, registers,
stack) fits in 16 bits — the `u16` storage type — and this invariant is
preserved both by program-image loading (which stores raw 16-bit words
assembled from bytes, without masking to 15 bits) and by every
single-step transition that returns (the `in` opcode additionally keeps
the queued stdin bytes in the 8-bit range). -/
theorem c9_amended_sixteen_bit :
    (∀ (vm vm' : VM) (bytes : List Nat), (∀ b ∈ bytes, b < 256) → vm.WfState →
      vm.load_program_from_file bytes = some vm' → vm'.WfState)
    ∧ (∀ (vm : VM) (o : StepOut), vm.WfState → vm.cycle = some o → o.state.WfState) :=
  ⟨fun _vm _vm' _bytes hb hwf h => VM.load_program_wf h hb hwf,
   fun _vm _o hwf h => VM.cycle_wf h hwf⟩

/-- Witness for the amended C9: loading `FF FF` into the fresh VM yields a
well-formed (16-bit) state, and stepping the fresh VM (a halt) does
too. -/
theorem c9_amended_sixteen_bit_witness :
    (∀ b ∈ ([255, 255] : List Nat), b < 256)
    ∧ VM.new.WfState
    ∧ ({ VM.new with memory := (List.replicate ADDRESS_SPACE 0).set 0 65535 } : VM).WfState
    ∧ (StepOut.ok { VM.new with pc := VM.new.pc + 1 } false).state.WfState :=
  ⟨by decide, VM.new_wf,
   c9_amended_sixteen_bit.1 VM.new _ [255, 255] (by decide) VM.new_wf VM.load_program_255,
   c9_amended_sixteen_bit.2 VM.new _ VM.new_wf (VM.cycle_op_halt VM.new_fetch0)⟩
